import Mathlib

/-!
Verification development for the searchPy text-ranking engine.

The definitions below are a shallow embedding of the scoring, classification
and ranking pipeline of the Python sources (`app/scoring/distance.py`,
`app/scoring/evaluator.py`, `app/scoring/phonetic.py`,
`app/search/search_utils.py`, `app/scoring/dispersion.py`, `app/config.py`).
Python floats are modelled by exact rationals (`ℚ`); Python dicts carrying a
fixed set of optional keys are modelled by structures of `Option` fields;
in-place dict mutation is modelled by explicit state passing.
-/

namespace SearchPy

/-! ## Configuration constants (`app/config.py`, class `Settings`) -/

def MAX_LEVENSHTEIN_DISTANCE : Nat := 4

def MIN_SCORE : ℚ := 1

def W_MISSING : ℚ := 3/5

def W_FUZZY : ℚ := 1/2

/-- The weight `W_RATIO = 1.0` of `Settings`. -/
def W_ratio : ℚ := 1

def W_EXTRA_LENGTH : ℚ := 3/20

def BONUS_MAX : ℚ := 2

def BONUS_A_MISSING : ℚ := 3/10

def BONUS_C_AVGDIST : ℚ := 7/20

def BONUS_WORD_RATIO_MIN : ℚ := 2/5

def BONUS_EXTRA_RATIO_MAX : ℚ := 1

def EXACT_THRESHOLD : ℚ := 10

def EXACT_FULL_CAP : ℚ := 999/100

def NO_SPACE_MIN_SCORE : ℚ := 7

def TYPE_PRIORITY : List (String × Nat) :=
  [("exact_full", 0), ("exact_with_extras", 1), ("no_space_match", 1), ("near_perfect", 2),
   ("phonetic_strict", 3), ("exact_with_missing", 4), ("fuzzy_full", 5), ("hybrid", 6),
   ("phonetic_tolerant", 7), ("fuzzy_partial", 8), ("partial", 9)]

/-- `settings.TYPE_PRIORITY.get(t, settings.TYPE_PRIORITY['partial'])`. -/
def typePriority (t : String) : Nat := (TYPE_PRIORITY.lookup t).getD 9

/-! ## String primitives

Kernel-computable counterparts (on the underlying character lists) of the
Python string operations used by the pipeline. -/

/-- `s.lower()` (ASCII case folding, which covers every string the scoring
pipeline compares after preprocessing). -/
def strLower (s : String) : String := ⟨s.data.map Char.toLower⟩

/-- Maximal non-whitespace runs of a character list (the combined effect of
`re.split(r'\s+', s.strip())` followed by dropping empty tokens). -/
def wordsAux : List Char → List Char → List String
  | [], acc => if acc = [] then [] else [⟨acc.reverse⟩]
  | c :: cs, acc =>
      if c.isWhitespace then
        if acc = [] then wordsAux cs [] else ⟨acc.reverse⟩ :: wordsAux cs []
      else wordsAux cs (c :: acc)

def splitWords (s : String) : List String := wordsAux s.data []

def listIsPrefix : List Char → List Char → Bool
  | [], _ => true
  | _ :: _, [] => false
  | a :: as, b :: bs => a == b && listIsPrefix as bs

/-- `b.startswith(a)`. -/
def strIsPrefix (a b : String) : Bool := listIsPrefix a.data b.data

/-- `s[:n]`. -/
def strTake (s : String) (n : Nat) : String := ⟨s.data.take n⟩

/-- `s.strip()`. -/
def strTrim (s : String) : String :=
  ⟨((s.data.dropWhile Char.isWhitespace).reverse.dropWhile Char.isWhitespace).reverse⟩

def listLtChar : List Char → List Char → Bool
  | [], [] => false
  | [], _ :: _ => true
  | _ :: _, [] => false
  | a :: as, b :: bs => if a < b then true else if b < a then false else listLtChar as bs

/-- Python's lexicographic `<` on strings (by code point). -/
def strLt (a b : String) : Bool := listLtChar a.data b.data

/-! ## StringDistance (`app/scoring/distance.py`) -/

/-- Levenshtein distance with unit costs, computed with an explicit fuel
argument so that the recursion is structural (the fuel is always sufficient:
every recursive call shrinks `xs.length + ys.length` by at least one). -/
def levFuel : Nat → List Char → List Char → Nat
  | _, [], ys => ys.length
  | _, xs, [] => xs.length
  | 0, xs, ys => max xs.length ys.length
  | n + 1, x :: xs, y :: ys =>
      if x = y then levFuel n xs ys
      else 1 + min (levFuel n xs ys) (min (levFuel n (x :: xs) ys) (levFuel n xs (y :: ys)))

/-- `lev.distance(s1, s2)` of the python-Levenshtein library. -/
def levenshtein (a b : String) : Nat := levFuel (a.data.length + b.data.length) a.data b.data

/-- `StringDistance.distance(s1, s2, max_distance)`: empty strings short-circuit
to `max(len(s1), len(s2))`; a distance above the cap is reported as `cap + 1`. -/
def string_distance (s1 s2 : String) (max_distance : Option Nat) : Nat :=
  if s1 = "" ∨ s2 = "" then max s1.length s2.length
  else
    let dist := levenshtein s1 s2
    match max_distance with
    | some m => if m < dist then m + 1 else dist
    | none => dist

/-- `StringDistance.dynamic_max(s)`. -/
def dynamic_max (s : String) : Nat :=
  if s.length ≤ 3 then 1
  else if s.length ≤ 6 then 2
  else if s.length ≤ 10 then 3
  else 4

/-! ## Synonyms (`FieldEvaluator.apply_synonyms`) -/

/-- A synonym table is the ordered list of `base → variants` rows of the
configured dict (Python dicts preserve insertion order). -/
abbrev SynTable : Type := List (String × List String)

/-- `FieldEvaluator.apply_synonyms(word1, word2)`: scan the rows in order and
return `word2` on the first row containing both lowercased words (as the base
or among the variants). -/
def apply_synonyms (syns : SynTable) (word1 word2 : String) : Option String :=
  let w1 := strLower word1
  let w2 := strLower word2
  match syns.find? (fun r => (w1 == r.1 || r.2.contains w1) && (w2 == r.1 || r.2.contains w2)) with
  | some _ => some word2
  | none => none

/-! ## FieldEvaluator (`app/scoring/evaluator.py`) -/

structure WordMatch where
  distance : Nat
  type : String
  matched_word : String
deriving DecidableEq

/-- `FieldEvaluator.calculate_word_match(query_word, candidate_word)`. -/
def calculate_word_match (max_distance : Nat) (syns : SynTable)
    (query_word candidate_word : String) : WordMatch :=
  let q := strLower query_word
  let c := strLower candidate_word
  if q = c then ⟨0, "exact", candidate_word⟩
  else if (apply_synonyms syns q c).isSome then ⟨0, "synonym", candidate_word⟩
  else
    let max_dist := min max_distance (dynamic_max q)
    ⟨string_distance q c (some max_dist), "levenshtein", candidate_word⟩

structure BestMatch where
  distance : Nat
  type : String
  matched_word : String
  position : Nat
deriving DecidableEq

/-- Index the elements of a list starting from `i` (models `enumerate`). -/
def enumF (i : Nat) : List α → List (Nat × α)
  | [] => []
  | a :: l => (i, a) :: enumF (i + 1) l

/-- The running `best_distance` of the scan: the current best's distance,
starting at `max_distance + 1`. -/
def bestDistance (max_distance : Nat) : Option BestMatch → Nat
  | some b => b.distance
  | none => max_distance + 1

/-- The scan loop of `FieldEvaluator.find_best_word_match`: positions in
`used` are skipped, a strictly smaller distance replaces the running best
(`best_distance` starts at `max_distance + 1`), and distance 0 breaks. -/
def findBestGo (max_distance : Nat) (syns : SynTable) (query_word : String)
    (used : List Nat) : List (Nat × String) → Option BestMatch → Option BestMatch
  | [], best => best
  | p :: rest, best =>
      if p.1 ∈ used then findBestGo max_distance syns query_word used rest best
      else
        let m := calculate_word_match max_distance syns query_word p.2
        if m.distance < bestDistance max_distance best then
          if m.distance = 0 then some ⟨m.distance, m.type, m.matched_word, p.1⟩
          else findBestGo max_distance syns query_word used rest
            (some ⟨m.distance, m.type, m.matched_word, p.1⟩)
        else findBestGo max_distance syns query_word used rest best

/-- `FieldEvaluator.find_best_word_match(query_word, candidate_words, used_positions)`. -/
def find_best_word_match (max_distance : Nat) (syns : SynTable) (query_word : String)
    (candidate_words : List String) (used : List Nat) : Option BestMatch :=
  findBestGo max_distance syns query_word used (enumF 0 candidate_words) none

structure Alignment where
  query_word : String
  matched_word : String
  distance : Nat
  type : String
  position : Nat
deriving DecidableEq

/-- The matching loop of `FieldEvaluator.evaluate_field`: each query word takes
its best candidate; the winning position is consumed (this happens inside
`find_best_word_match` in the source, so it is threaded here explicitly);
a best above `max_distance` sends the word to `not_found`. -/
def evalLoop (max_distance : Nat) (syns : SynTable) (candidate_words : List String) :
    List String → List Nat → List Alignment × List String × List Nat
  | [], used => ([], [], used)
  | q :: qs, used =>
      match find_best_word_match max_distance syns q candidate_words used with
      | some b =>
          let rest := evalLoop max_distance syns candidate_words qs (b.position :: used)
          if b.distance ≤ max_distance then
            (⟨q, b.matched_word, b.distance, b.type, b.position⟩ :: rest.1, rest.2.1, rest.2.2)
          else (rest.1, q :: rest.2.1, rest.2.2)
      | none =>
          let rest := evalLoop max_distance syns candidate_words qs used
          (rest.1, q :: rest.2.1, rest.2.2)

structure Penalties where
  mots_manquants : Nat
  distance_moyenne : ℚ
  longueur_ratio : ℚ
  coverage_ratio : ℚ
  extra_length : Nat
  extra_length_ratio : ℚ
deriving DecidableEq

structure FieldEval where
  found : List Alignment
  not_found : List String
  total_distance : Nat
  average_distance : ℚ
  found_count : Nat
  query_count : Nat
  result_count : Nat
  extra_length : Nat
  extra_length_ratio : ℚ
  penalties : Penalties
deriving DecidableEq

/-- `FieldEvaluator.evaluate_field(query_words, candidate_words, query_text)`. -/
def evaluate_field (max_distance : Nat) (syns : SynTable)
    (query_words candidate_words : List String) (query_text : String) : FieldEval :=
  let res := evalLoop max_distance syns candidate_words query_words []
  let found := res.1
  let not_found := res.2.1
  let total_distance : Nat := (found.map (fun a => a.distance)).sum
  let found_count := found.length
  let query_count := query_words.length
  let result_count := candidate_words.length
  let avg_distance : ℚ := if 0 < found_count then (total_distance : ℚ) / (found_count : ℚ) else 0
  let missing_terms := not_found.length
  let length_ratio : ℚ :=
    if query_count ≠ 0 ∧ result_count ≠ 0 then
      (min query_count result_count : ℚ) / (max query_count result_count : ℚ)
    else 1
  let coverage_ratio : ℚ :=
    if 0 < query_count then (found_count : ℚ) / (query_count : ℚ) else 1
  let found_positions := found.map (fun a => a.position)
  let extra_length : Nat :=
    ((enumF 0 candidate_words).filter (fun p => decide (p.1 ∉ found_positions))).foldl
      (fun acc p => acc + p.2.length) 0
  let query_length := query_text.length
  let extra_length_ratio : ℚ :=
    if 0 < query_length then (extra_length : ℚ) / (query_length : ℚ) else 0
  { found := found
    not_found := not_found
    total_distance := total_distance
    average_distance := avg_distance
    found_count := found_count
    query_count := query_count
    result_count := result_count
    extra_length := extra_length
    extra_length_ratio := extra_length_ratio
    penalties :=
      { mots_manquants := missing_terms
        distance_moyenne := avg_distance
        longueur_ratio := length_ratio
        coverage_ratio := coverage_ratio
        extra_length := extra_length
        extra_length_ratio := extra_length_ratio } }

/-! ## Data model (`app/models.py` QueryData, Meilisearch hits) -/

structure QueryData where
  original : String
  cleaned : String
  no_space : String
  soundex : String
  wordsCleaned : List String
  wordsOriginal : List String
  wordsNoSpace : List String
deriving DecidableEq

structure GeoRec where
  lat : Option ℚ := none
  lng : Option ℚ := none
deriving DecidableEq

/-- A candidate document, restricted to the named attributes the pipeline
reads; absent dict keys are `none`. `discovery_strategy` models the
`_discovery_strategy` key that deduplication stamps onto the record. -/
structure Hit where
  id : Option String := none
  id_etab : Option String := none
  name : Option String := none
  nom : Option String := none
  name_search : Option String := none
  name_no_space : Option String := none
  name_soundex : Option String := none
  geo : Option GeoRec := none
  lat : Option ℚ := none
  lng : Option ℚ := none
  long : Option ℚ := none
  discovery_strategy : Option String := none
deriving DecidableEq

/-- `re.split(r'\s+', s.lower().strip())` with empty tokens dropped (the
source filters them with `if w`). -/
def tokenize (s : String) : List String := splitWords (strLower s)

/-- Python truthiness of an optional string: `None` and `""` are falsy. -/
def truthy : Option String → Option String
  | some s => if s = "" then none else some s
  | none => none

/-- `str(hit.get('name') or hit.get('nom', ''))`. -/
def hitName (h : Hit) : String := ((truthy h.name).orElse (fun _ => some (h.nom.getD ""))).getD ""

/-! ## Main score (`FieldEvaluator.calculate_main_score`, `calculate_name_bonus`) -/

/-- `FieldEvaluator.calculate_name_bonus(eval_name, query_words, query_text)`. -/
def calculate_name_bonus (eval_name : FieldEval) (query_words : List String) : ℚ :=
  let query_word_count := query_words.length
  let name_word_count := eval_name.result_count
  let word_count_ratio : ℚ :=
    if 0 < name_word_count then
      (min query_word_count name_word_count : ℚ) / (max query_word_count name_word_count : ℚ)
    else 0
  let extra_length_ratio := eval_name.extra_length_ratio
  if word_count_ratio < BONUS_WORD_RATIO_MIN ∨ BONUS_EXTRA_RATIO_MAX < extra_length_ratio then 0
  else
    let score_terms : ℚ := (eval_name.found.map (fun m =>
      if m.distance = 0 then (1 : ℚ)
      else if m.distance = 1 then 7/10
      else if m.distance = 2 then 2/5
      else 1/5)).sum
    let max_score : ℚ := (max 1 query_word_count : ℚ)
    let score_ratio := score_terms / max_score
    let bonus_base := BONUS_MAX * score_ratio
    let bonus_reduction :=
      BONUS_A_MISSING * (eval_name.penalties.mots_manquants : ℚ)
      + BONUS_C_AVGDIST * max 0 eval_name.average_distance
      + BONUS_MAX * extra_length_ratio * (3/5)
    let bonus := max 0 (min BONUS_MAX (bonus_base - bonus_reduction))
    let attenuation_range := 1 - BONUS_WORD_RATIO_MIN
    let attenuation_factor :=
      max 0 (min 1 ((word_count_ratio - BONUS_WORD_RATIO_MIN) / attenuation_range))
    bonus * attenuation_factor

structure MainScore where
  name_search_score : ℚ
  no_space_score : ℚ
  base_score : ℚ
  winning_strategy : String
  name_score : ℚ
  total_score : ℚ
  name_search_matches : Option FieldEval := none
  no_space_matches : Option FieldEval := none
  name_matches : Option FieldEval := none
  penalty_indices : Option Penalties := none
  all_words_found : Bool
  match_type : String
  match_priority : Nat
deriving DecidableEq

/-- The strategy-adjusted score of one field (the two identical blocks of
`calculate_main_score` for `name_search` and `no_space`). -/
def adjustedScore (ev : FieldEval) : ℚ :=
  if ev.found_count = 0 then 0
  else
    let score := max 0 (min 10 ((10 : ℚ) - (ev.total_distance : ℚ)))
    let penalty :=
      W_MISSING * (ev.penalties.mots_manquants : ℚ)
      + W_FUZZY * max 0 ev.penalties.distance_moyenne
      + W_ratio * (1 - max 0 (min 1 ev.penalties.longueur_ratio))
      + W_EXTRA_LENGTH * ev.penalties.extra_length_ratio * 10
    max 0 (score - penalty)

/-- The `no_space` adjusted score with its decisiveness threshold: below
`NO_SPACE_MIN_SCORE` the strategy is silenced to 0 (the threshold is applied
only when `found_count > 0`, matching the source's `else` block; with
`found_count = 0` the adjusted score is already 0). -/
def noSpaceAdjusted (e : FieldEval) : ℚ :=
  if e.found_count = 0 then adjustedScore e
  else if adjustedScore e < NO_SPACE_MIN_SCORE then 0 else adjustedScore e

/-- Winner selection between the two strategies: `no_space` wins iff it is
valid (positive score and at least one found word) and either `name_search`
is invalid or `no_space ≥ name_search`; else `name_search` if valid; else no
winner (base score 0, penalties of `eval_search`). -/
def winnerSel (name_search_score_adj no_space_score_adj : ℚ)
    (eval_search eval_no_space : FieldEval) : String × ℚ × FieldEval :=
  if (0 < no_space_score_adj ∧ 0 < eval_no_space.found_count) ∧
      (¬ (0 < name_search_score_adj ∧ 0 < eval_search.found_count) ∨
        name_search_score_adj ≤ no_space_score_adj) then
    ("no_space", no_space_score_adj, eval_no_space)
  else if 0 < name_search_score_adj ∧ 0 < eval_search.found_count then
    ("name_search", name_search_score_adj, eval_search)
  else ("none", 0, eval_search)

/-- The match-type classification on the winning field, including the
`near_perfect` promotion of a `fuzzy_full` with total score ≥ 8. -/
def matchTypeOf (winning_strategy : String) (winning_eval : FieldEval)
    (total_score : ℚ) : String :=
  if winning_eval.found_count = 0 then "partial"
  else
    let avg := winning_eval.average_distance
    let missing := winning_eval.penalties.mots_manquants
    let extra_ratio := winning_eval.penalties.extra_length_ratio
    let mt :=
      if avg = 0 then
        if missing = 0 ∧ extra_ratio = 0 then "exact_full"
        else if missing = 0 then
          (if winning_strategy = "no_space" then "no_space_match" else "exact_with_extras")
        else "exact_with_missing"
      else if missing = 0 then "fuzzy_full" else "fuzzy_partial"
    if mt = "fuzzy_full" ∧ 8 ≤ total_score then "near_perfect" else mt

/-- `FieldEvaluator.calculate_main_score(hit, query_data)`. -/
def calculate_main_score (max_distance : Nat) (syns : SynTable)
    (hit : Hit) (qd : QueryData) : MainScore :=
  if qd.wordsCleaned = [] then
    { name_search_score := 0, no_space_score := 0, base_score := 0, name_score := 0
      total_score := 0, winning_strategy := "none", penalty_indices := none
      all_words_found := false, match_type := "partial", match_priority := typePriority "partial" }
  else
    let name_search := hit.name_search.getD ""
    let name_no_space := hit.name_no_space.getD ""
    let name := hitName hit
    let name_search_words := tokenize name_search
    let name_no_space_words := tokenize name_no_space
    let name_words := tokenize name
    let eval_search := evaluate_field max_distance syns qd.wordsCleaned name_search_words qd.cleaned
    let name_search_score_adj := adjustedScore eval_search
    let eval_no_space :=
      evaluate_field max_distance syns qd.wordsNoSpace name_no_space_words qd.no_space
    let no_space_score_adj := noSpaceAdjusted eval_no_space
    let winner := winnerSel name_search_score_adj no_space_score_adj eval_search eval_no_space
    let winning_strategy := winner.1
    let base_score := winner.2.1
    let winning_eval := winner.2.2
    let winning_penalties := winning_eval.penalties
    let eval_name := evaluate_field max_distance syns qd.wordsOriginal name_words qd.original
    let bonus := calculate_name_bonus eval_name qd.wordsOriginal
    let total_score := min 12 (base_score + bonus)
    let match_type := matchTypeOf winning_strategy winning_eval total_score
    { name_search_score := name_search_score_adj
      no_space_score := no_space_score_adj
      base_score := base_score
      winning_strategy := winning_strategy
      name_score := bonus
      total_score := total_score
      name_search_matches := some eval_search
      no_space_matches := some eval_no_space
      name_matches := some eval_name
      penalty_indices := some winning_penalties
      all_words_found := winning_penalties.mots_manquants = 0
      match_type := match_type
      match_priority := typePriority match_type }

/-! ## PhoneticScorer (`app/scoring/phonetic.py`) -/

/-- `PhoneticScorer.phonetic_tokens(s)`: whitespace split, lowercased, tokens
of length ≤ 1 dropped. -/
def phonetic_tokens (s : String) : List String :=
  (splitWords (strLower s)).filter (fun t => decide (t ≠ "" ∧ 1 < t.length))

/-- Prefix acceptance of the phonetic matcher: both tokens usable (shorter one
of length ≥ 4) and one is a prefix of the other. -/
def phonAccept (q c : String) : Bool :=
  decide (4 ≤ min q.length c.length) && (strIsPrefix c q || strIsPrefix q c)

/-- Tolerant acceptance: shorter token of length ≥ 6 and capped Levenshtein
distance at most 1. -/
def tolerantAccept (q c : String) : Bool :=
  decide (6 ≤ min q.length c.length) && decide (string_distance q c (some 1) ≤ 1)

/-- The inner candidate scan of `PhoneticScorer.match_phonetic_tokens` for one
query token: equality returns immediately (`break`); a prefix match records
the index and keeps scanning (`continue`); in tolerant mode an edit-distance
match records the index with the tolerant flag and also keeps scanning.
The accumulator is the recorded `(best_idx, is_tolerant)`. -/
def phonPickGo (tolerant : Bool) (q : String) (used : List Nat) :
    List (Nat × String) → Option (Nat × Bool) → Option (Nat × Bool)
  | [], best => best
  | p :: rest, best =>
      if p.1 ∈ used then phonPickGo tolerant q used rest best
      else if q = p.2 then some (p.1, false)
      else if phonAccept q p.2 then phonPickGo tolerant q used rest (some (p.1, false))
      else if tolerant && tolerantAccept q p.2 then phonPickGo tolerant q used rest (some (p.1, true))
      else phonPickGo tolerant q used rest best

structure PhonMatch where
  found : Nat
  tolerant_used : Bool
deriving DecidableEq

/-- `PhoneticScorer.match_phonetic_tokens(query_tokens, hit_tokens, tolerant)`. -/
def match_phonetic_tokens (query_tokens hit_tokens : List String) (tolerant : Bool) : PhonMatch :=
  let st := query_tokens.foldl (fun (st : List Nat × Nat × Bool) qt =>
    match phonPickGo tolerant qt st.1 (enumF 0 hit_tokens) none with
    | some (i, istol) => (i :: st.1, st.2.1 + 1, st.2.2 || istol)
    | none => st) ([], 0, false)
  ⟨st.2.1, st.2.2⟩

structure PhonScore where
  score : ℚ
  ratio : ℚ
  match_type : String
  query_soundex : String
  hit_soundex : String
deriving DecidableEq

/-- The ratio-dependent cap of the phonetic score (`ratio=1.0 → ≤7.5`,
`ratio≥0.66 → ≤7.0`, else `≤6.0`). -/
def phonCap (ratio s : ℚ) : ℚ :=
  if ratio = 1 then min (15/2) s
  else if 33/50 ≤ ratio then min 7 s
  else min 6 s

/-- `PhoneticScorer.calculate_phonetic_score(hit, query_data)`. -/
def calculate_phonetic_score (hit : Hit) (qd : QueryData) : Option PhonScore :=
  let q := strTrim qd.soundex
  let h := strTrim (hit.name_soundex.getD "")
  if q = "" ∨ h = "" then none
  else
    let q_tokens := phonetic_tokens q
    let h_tokens := phonetic_tokens h
    if q_tokens = [] ∨ h_tokens = [] then none
    else
      let strict := match_phonetic_tokens q_tokens h_tokens false
      let ratio : ℚ := (strict.found : ℚ) / (q_tokens.length : ℚ)
      let score := phonCap ratio (8 * ratio)
      if score < 6 then
        let tol := match_phonetic_tokens q_tokens h_tokens true
        let ratio_tol : ℚ := (tol.found : ℚ) / (q_tokens.length : ℚ)
        if ratio < ratio_tol then
          some ⟨phonCap ratio_tol (8 * ratio_tol), ratio_tol, "phonetic_tolerant", q, h⟩
        else some ⟨score, ratio, "phonetic_strict", q, h⟩
      else some ⟨score, ratio, "phonetic_strict", q, h⟩

/-! ## Final score (`FieldEvaluator.calculate_final_score`) -/

/-- The part of a `main_score` dict that `calculate_final_score` reads: the
`total_score` and `match_type` keys, either possibly absent. -/
structure MainArg where
  total_score : Option ℚ
  match_type : Option String
deriving DecidableEq

def mainToArg (m : MainScore) : MainArg := ⟨some m.total_score, some m.match_type⟩

/-- Python's `round(x, 2)` on exact values: round half to even at 2 decimals. -/
def roundHalfEven (x : ℚ) : ℤ :=
  let f := ⌊x⌋
  let r := x - (f : ℚ)
  if r < 1/2 then f
  else if 1/2 < r then f + 1
  else if f % 2 = 0 then f else f + 1

def round2 (x : ℚ) : ℚ := (roundHalfEven (x * 100) : ℚ) / 100

structure FinalScore where
  score : ℚ
  type : String
  method : String
  weights : Option (ℚ × ℚ) := none
  error_reason : Option String := none
deriving DecidableEq

/-- `FieldEvaluator.calculate_final_score(main_score, phon_score)`. -/
def calculate_final_score (main : Option MainArg) (phon : Option PhonScore) : FinalScore :=
  match main with
  | none => { score := 0, type := "invalid", method := "error",
              error_reason := some "missing_main_score" }
  | some m =>
    match m.total_score with
    | none => { score := 0, type := "invalid", method := "error",
                error_reason := some "missing_main_score" }
    | some ts =>
      let text_score := ts
      let phon_value : ℚ := match phon with | some p => p.score | none => 0
      if 17/2 ≤ text_score then
        { score := text_score, type := m.match_type.getD "text", method := "text_only" }
      else if 6 ≤ text_score ∧ text_score < 17/2 ∧ 0 < phon_value then
        let text_weight := 7/10 + text_score / 40
        let phon_weight := 1 - text_weight
        let hybrid := text_score * text_weight + phon_value * phon_weight
        { score := round2 hybrid, type := "hybrid", method := "weighted",
          weights := some (round2 text_weight, round2 phon_weight) }
      else if text_score < phon_value then
        { score := phon_value,
          type := (match phon with | some p => p.match_type | none => "phonetic"),
          method := "phonetic_fallback" }
      else
        { score := text_score, type := m.match_type.getD "text", method := "text_only" }

/-! ## SearchUtils (`app/search/search_utils.py`) -/

/-- A hit enriched by `SearchUtils.classify_result`: `_score`, `_match_type`,
`_match_method`, `_match_priority`, optional `_capped`. `classify_result`
never attaches a `_penalty_indices` key, so `penalty_indices` is `none` for
every hit it produces (the field exists because `compare_results` tests for
the key's presence). -/
structure Scored where
  hit : Hit
  score : ℚ
  match_type : String
  match_method : String
  match_priority : Nat
  capped : Bool
  penalty_indices : Option Penalties := none
deriving DecidableEq

/-- `SearchUtils.classify_result(hit, query_data)`: main score, phonetic
score, final hybrid score, then the strict cap (only `exact_full` may keep a
score ≥ `EXACT_THRESHOLD`; every other type is reset to `EXACT_FULL_CAP`
with `_capped=True`), then the type priority. The input `hit` is copied
(`hit.copy()`), so the scoring keys land on a fresh record. -/
def classify_result (max_distance : Nat) (syns : SynTable) (hit : Hit) (qd : QueryData) : Scored :=
  let main := calculate_main_score max_distance syns hit qd
  let phon := calculate_phonetic_score hit qd
  let fin := calculate_final_score (some (mainToArg main)) phon
  if fin.type ≠ "exact_full" ∧ EXACT_THRESHOLD ≤ fin.score then
    { hit := hit, score := EXACT_FULL_CAP, match_type := fin.type, match_method := fin.method,
      match_priority := typePriority fin.type, capped := true }
  else
    { hit := hit, score := fin.score, match_type := fin.type, match_method := fin.method,
      match_priority := typePriority fin.type, capped := false }

/-- `SearchUtils.compare_penalty_indices(a, b)`. -/
def compare_penalty_indices (a b : Penalties) : Int :=
  if 1/100 < |a.extra_length_ratio - b.extra_length_ratio| then
    (if a.extra_length_ratio < b.extra_length_ratio then -1 else 1)
  else if 1/1000 < |a.longueur_ratio - b.longueur_ratio| then
    (if b.longueur_ratio < a.longueur_ratio then -1 else 1)
  else if a.distance_moyenne < b.distance_moyenne then -1
  else if b.distance_moyenne < a.distance_moyenne then 1
  else 0

/-- The penalty comparison is applied only when both records carry a
`_penalty_indices` key; otherwise that tie-break contributes 0. -/
def penCmpOpt (a b : Scored) : Int :=
  match a.penalty_indices, b.penalty_indices with
  | some pa, some pb => compare_penalty_indices pa pb
  | _, _ => 0

/-- `a.get('id') or a.get('id_etab', '')` as used by the sort tie-break. -/
def sortId (s : Scored) : String := (truthy s.hit.id).getD (s.hit.id_etab.getD "")

/-- `SearchUtils.compare_results(a, b)`: score descending, priority
ascending, penalty tie-break, id ascending. -/
def compare_results (a b : Scored) : Int :=
  if a.score ≠ b.score then (if b.score < a.score then -1 else 1)
  else if a.match_priority ≠ b.match_priority then
    (if a.match_priority < b.match_priority then -1 else 1)
  else if penCmpOpt a b ≠ 0 then penCmpOpt a b
  else if strLt (sortId a) (sortId b) then -1
  else if strLt (sortId b) (sortId a) then 1
  else 0

/-- Stable insertion into a list sorted by a boolean comparator. -/
def orderedInsertCmp (le : α → α → Bool) (a : α) : List α → List α
  | [] => [a]
  | b :: l => if le a b then a :: b :: l else b :: orderedInsertCmp le a l

/-- Stable insertion sort; on a total preorder comparator this produces the
same list as Python's stable `sorted(..., key=cmp_to_key(cmp))`. -/
def insertionSortCmp (le : α → α → Bool) : List α → List α
  | [] => []
  | a :: l => orderedInsertCmp le a (insertionSortCmp le l)

/-- `SearchUtils.sort_results(results)`. -/
def sort_results (results : List Scored) : List Scored :=
  insertionSortCmp (fun a b => compare_results a b ≤ 0) results

/-- The deduplication key: `hit.get('id') or hit.get('id_etab')`, with a
fallback fingerprint `(hit.get('name') or hit.get('nom') or '')[:200]`. -/
def dedupKey (h : Hit) : String :=
  match (truthy h.id).orElse (fun _ => h.id_etab) with
  | some k => k
  | none => strTake (((truthy h.name).orElse (fun _ => truthy h.nom)).getD "") 200

def priority_order : List String := ["name_search", "no_space", "standard", "phonetic"]

/-- One strategy pass of `SearchUtils.deduplicate_results`: unseen hits are
stamped with `_discovery_strategy` and appended to the unique list. -/
def dedupStrategy (strategy : String) (hits : List Hit) (acc : List Hit × List String) :
    List Hit × List String :=
  hits.foldl (fun acc h =>
    let key := dedupKey h
    if key ∈ acc.2 then acc
    else (acc.1 ++ [{ h with discovery_strategy := some strategy }], key :: acc.2)) acc

/-- `SearchUtils.deduplicate_results(all_results)`: iterate the fixed
priority order, skipping absent strategies. `all_results` maps strategy
names to the strategy's hit lists. -/
def deduplicate_results (all_results : List (String × List Hit)) : List Hit :=
  (priority_order.foldl (fun acc strategy =>
    match all_results.lookup strategy with
    | none => acc
    | some hits => dedupStrategy strategy hits acc) ([], [])).1

/-- One strategy pass over the caller's own list: the post-call state of the
input records. The hits selected by deduplication are the very dict objects
of the caller, and `hit['_discovery_strategy'] = strategy` mutates them in
place, so a selected input record gains the key while a duplicate stays
unchanged. -/
def stampList (strategy : String) (seen : List String) (hits : List Hit) :
    List Hit × List String :=
  hits.foldl (fun (acc : List Hit × List String) h =>
    let key := dedupKey h
    if key ∈ acc.2 then (acc.1 ++ [h], acc.2)
    else (acc.1 ++ [{ h with discovery_strategy := some strategy }], key :: acc.2)) ([], seen)

/-- The state of the caller's `all_results` lists after
`SearchUtils.deduplicate_results` returns (explicit-state model of the
in-place `hit['_discovery_strategy']` writes). -/
def dedupInputsAfter (all_results : List (String × List Hit)) : List (String × List Hit) :=
  let step := priority_order.foldl (fun (acc : List (String × List Hit) × List String) strategy =>
    match all_results.lookup strategy with
    | none => acc
    | some hits =>
        let r := stampList strategy acc.2 hits
        (acc.1 ++ [(strategy, r.1)], r.2)) ([], [])
  all_results.map (fun p =>
    match step.1.lookup p.1 with
    | some hs => (p.1, hs)
    | none => p)

structure ProcessOut where
  hits : List Scored
  total : Nat
  has_exact_results : Bool
  exact_count : Nat
  total_before_filter : Nat
deriving DecidableEq

/-- `SearchUtils.process_results(all_results, query_data)`: deduplicate,
score and filter by `MIN_SCORE`, sort, then the exact short-circuit. The
wall-clock `query_time_ms` field is not modelled. -/
def process_results (max_distance : Nat) (syns : SynTable)
    (all_results : List (String × List Hit)) (qd : QueryData) : ProcessOut :=
  let dedup := deduplicate_results all_results
  let total_before_filter := dedup.length
  let enriched := (dedup.map (fun h => classify_result max_distance syns h qd)).filter
    (fun s => decide (MIN_SCORE ≤ s.score))
  let sorted := sort_results enriched
  let exact_results := sorted.filter (fun s => decide (EXACT_THRESHOLD ≤ s.score))
  let has_exact_results := decide (0 < exact_results.length)
  let final_hits := if has_exact_results then exact_results else sorted
  { hits := final_hits
    total := final_hits.length
    has_exact_results := has_exact_results
    exact_count := exact_results.length
    total_before_filter := total_before_filter }

/-! ## GeoDispersionService (`app/scoring/dispersion.py`) -/

structure GeoPoint where
  lat : ℚ
  lng : ℚ
deriving DecidableEq

/-- `GeoPoint.from_dict(data)`: `_geo.lat`/`_geo.lng`, else top-level
`lat`/`lng`, else `lat`/`long`. -/
def GeoPoint.from_dict (h : Hit) : Option GeoPoint :=
  match h.geo with
  | some g =>
      match g.lat, g.lng with
      | some la, some ln => some ⟨la, ln⟩
      | _, _ => none
  | none =>
      match h.lat, h.lng with
      | some la, some ln => some ⟨la, ln⟩
      | _, _ =>
          match h.lat, h.long with
          | some la, some ln => some ⟨la, ln⟩
          | _, _ => none

/-- Python's `int()` on a float: truncation toward zero. -/
def truncQ (x : ℚ) : ℤ := if 0 ≤ x then ⌊x⌋ else ⌈x⌉

/-- `GeoDispersionService._get_grid_cell(point)`:
`f"{int(lat/grid)}_{int(lng/grid)}"`. -/
def get_grid_cell (grid_size : ℚ) (p : GeoPoint) : String :=
  toString (truncQ (p.lat / grid_size)) ++ "_" ++ toString (truncQ (p.lng / grid_size))

/-- Append a hit to its cell's bucket, preserving dict insertion order. -/
def insertCell : List (String × List Hit) → String → Hit → List (String × List Hit)
  | [], k, h => [(k, [h])]
  | (k0, l) :: rest, k, h =>
      if k0 = k then (k0, l ++ [h]) :: rest else (k0, l) :: insertCell rest k h

/-- The cell-grouping step of `GeoDispersionService._disperse_by_grid`. -/
def groupCells (grid_size : ℚ) (hits : List Hit) : List (String × List Hit) :=
  hits.foldl (fun cells h =>
    match GeoPoint.from_dict h with
    | some p => insertCell cells (get_grid_cell grid_size p) h
    | none => cells) []

/-! ## Configured synonym table (`Settings.SYNONYMS_FR`, `app/config.py`);
the apostrophe character of a few entries is spliced in as `apoS`. -/

def apoS : String := String.singleton (Char.ofNat 39)

def SYNONYMS_FR : SynTable :=
  [("saint", ["st", "st."]),
   ("sainte", ["ste", "ste."]),
   ("notre-dame", ["n.d.", "nd", "notre dame"]),
   ("mont", ["mt"]),
   ("grand", ["gr", "gd"]),
   ("petit", ["pt", "p" ++ apoS ++ "tit"]),
   ("restaurant", ["resto", "restau", "table", "établissement"]),
   ("brasserie", ["bistrot", "bistro", "taverne", "estaminet"]),
   ("café", ["bar", "buvette", "salon de thé", "comptoir"]),
   ("auberge", ["hostellerie", "relais"]),
   ("crêperie", ["creperie", "galetterie"]),
   ("sandwicherie", ["snack", "sandwich"]),
   ("pizzeria", ["pizza", "italien"]),
   ("boulangerie", ["boulanger", "pain", "patisserie"]),
   ("chinois", ["asiatique", "oriental", "chine"]),
   ("japonais", ["sushi", "japon", "nippon", "ramen", "yakitori"]),
   ("indien", ["curry", "inde", "tandoor", "bollywood"]),
   ("italien", ["italie", "pasta", "pizzeria"]),
   ("français", ["traditionnel", "classique", "terroir", "hexagonal"]),
   ("américain", ["burger", "hamburger", "fast-food", "usa"]),
   ("mexicain", ["tex-mex", "mexique", "tacos"]),
   ("libanais", ["oriental", "liban", "mezze"]),
   ("grec", ["grèce", "hellénique", "souvlaki"]),
   ("turc", ["turquie", "kebab", "döner"]),
   ("thaï", ["thaïlande", "thai", "pad-thai"]),
   ("vietnamien", ["vietnam", "pho", "nem"]),
   ("marocain", ["maroc", "maghrébin", "tajine", "couscous"]),
   ("alsacien", ["alsace", "choucroute", "bretzel"]),
   ("breton", ["bretagne", "crêpe", "galette", "cidre"]),
   ("provençal", ["provence", "méditerranéen", "bouillabaisse"]),
   ("lyonnais", ["lyon", "bouchon", "quenelle"]),
   ("normand", ["normandie", "calvados", "camembert"]),
   ("savoyard", ["savoie", "fondue", "raclette", "tartiflette"]),
   ("auvergnat", ["auvergne", "truffade", "cantal"]),
   ("gascon", ["gascogne", "cassoulet", "confit"]),
   ("mcdonalds", ["mcdonald" ++ apoS ++ "s", "mcdo", "macdo", "ronald", "mcdonald",
                  "macdonalds", "macdonald" ++ apoS ++ "s", "macdonald"]),
   ("kfc", ["kentucky", "poulet frit"]),
   ("quick", ["burger king"]),
   ("subway", ["sub", "sandwich"]),
   ("livraison", ["delivery", "à domicile", "emporter", "takeaway"]),
   ("terrasse", ["extérieur", "dehors", "jardin", "patio"]),
   ("climatisé", ["clim", "air conditionné"]),
   ("parking", ["stationnement", "garage"]),
   ("wifi", ["internet", "connexion"]),
   ("romantique", ["amoureux", "intime", "cosy"]),
   ("familial", ["famille", "enfants", "kids"]),
   ("branché", ["tendance", "mode", "hip"]),
   ("traditionnel", ["authentique", "ancien", "classique"]),
   ("moderne", ["contemporain", "design"]),
   ("pas cher", ["économique", "abordable", "bon marché"]),
   ("cher", ["luxe", "haut de gamme", "gastronomique"]),
   ("menu", ["formule", "plat du jour"]),
   ("ouvert", ["open"]),
   ("fermé", ["closed"]),
   ("midi", ["déjeuner", "lunch"]),
   ("soir", ["dîner", "dinner"]),
   ("centre-ville", ["centre", "hypercentre", "coeur de ville"]),
   ("gare", ["station", "terminus"]),
   ("aéroport", ["airport", "terminal"]),
   ("université", ["fac", "campus", "étudiants"]),
   ("hôpital", ["clinique", "médical"]),
   ("zone commerciale", ["centre commercial", "galerie marchande"]),
   ("ritz", ["le ritz", "hotel ritz", "palace ritz"]),
   ("plaza", ["le plaza", "plaza athénée"]),
   ("bristol", ["le bristol", "hotel bristol"]),
   ("george v", ["george 5", "four seasons george v"]),
   ("crillon", ["le crillon", "hotel de crillon"]),
   ("meurice", ["le meurice", "hotel meurice"]),
   ("shangri-la", ["shangri la", "hotel shangri-la"]),
   ("café de la paix", ["de la paix", "peace café"]),
   ("fouquet" ++ apoS ++ "s", ["fouquets", "le fouquet" ++ apoS ++ "s"]),
   ("angelina", ["salon angelina", "thé angelina"]),
   ("ladurée", ["laduree", "salon ladurée"]),
   ("berthillon", ["glacier berthillon", "ile saint louis"]),
   ("marché des enfants rouges", ["enfants rouges", "marché enfants rouges"]),
   ("marché saint germain", ["st germain marché", "marché st germain"]),
   ("marché aux puces", ["puces", "puces de saint-ouen"]),
   ("marché couvert", ["halles", "marché des halles"]),
   ("drive", ["drive-in", "au volant", "sans descendre"]),
   ("click and collect", ["click & collect", "retrait magasin", "à récupérer"]),
   ("brunch", ["petit-déjeuner tardif", "breakfast"]),
   ("afterwork", ["after-work", "après travail", "5 à 7"]),
   ("happy hour", ["heure heureuse", "prix réduits"]),
   ("végétarien", ["végé", "veggie", "sans viande"]),
   ("végan", ["vegan", "végétalien", "plant-based"]),
   ("sans gluten", ["gluten-free", "intolérant gluten", "coeliaque"]),
   ("halal", ["musulman", "certifié halal"]),
   ("casher", ["kasher", "cacher", "juif", "rabbinique"])]

/-- Modelled from the spec: the "single flattened reverse lookup table"
(`SynonymIndex` of spec §4.2) that claim C4 describes — for each
`base → [variants]` row, insert `lower(base) → base` and `lower(v) → base`;
a later insertion of the same surface form overwrites an earlier one, so a
lookup returns the base of the last row containing the word. This definition
exists only to compare the spec's description against `apply_synonyms`. -/
def flattenedLookup (rows : SynTable) (w : String) : Option String :=
  ((rows.filter (fun r => w == strLower r.1 || (r.2.map strLower).contains w)).getLast?).map
    (fun r => r.1)

/-! ## Specification models and concrete inputs used by the claims -/

/-- Modelled from the claim C5 / spec words "for each query token, scan
unused candidate tokens in order; accept on equality, or on prefix match
…; first accept wins": the first unused candidate that is equal or
prefix-acceptable is selected. Exists only to compare the claimed semantics
with `phonPickGo`. -/
def firstAcceptPick (q : String) (used : List Nat) (l : List (Nat × String)) : Option Nat :=
  ((l.filter (fun p => decide (p.1 ∉ used))).find?
    (fun p => p.2 == q || phonAccept q p.2)).map (fun p => p.1)

/-- Modelled from the claim C5 / spec words: the whole strict matching pass
under first-accept-wins semantics, counting matched query tokens. -/
def match_tokens_first_accept (query_tokens hit_tokens : List String) : Nat :=
  (query_tokens.foldl (fun (st : List Nat × Nat) qt =>
    match firstAcceptPick qt st.1 (enumF 0 hit_tokens) with
    | some i => (i :: st.1, st.2 + 1)
    | none => st) ([], 0)).2

/-- The behaviour of the source's strict scan, characterised: the first
unused equal candidate wins and stops the scan; failing that, the last
unused prefix-acceptable candidate wins. -/
def phonPickSpec (q : String) (used : List Nat) (l : List (Nat × String)) : Option Nat :=
  let free := l.filter (fun p => decide (p.1 ∉ used))
  match free.find? (fun p => p.2 == q) with
  | some p => some p.1
  | none => ((free.filter (fun p => phonAccept q p.2)).getLast?).map (fun p => p.1)

/-- A hit record with the in-place scoring annotation erased; two hits with
the same core agree on every field a candidate document arrived with. -/
def coreOf (h : Hit) : Hit := { h with discovery_strategy := none }

/-- Scenario S1 of the spec: query "petit resto". -/
def qdS1 : QueryData :=
  { original := "Petit Resto", cleaned := "petit resto", no_space := "petitresto",
    soundex := "", wordsCleaned := ["petit", "resto"], wordsOriginal := ["Petit", "Resto"],
    wordsNoSpace := ["petitresto"] }

/-- Scenario S1 of the spec: candidate named "Petit Resto". -/
def hitS1 : Hit :=
  { id := some "h1", name := some "Petit Resto", name_search := some "petit resto" }

/-- `hitS1` as it stands after deduplication stamped its discovery strategy. -/
def hitS1d : Hit := { hitS1 with discovery_strategy := some "name_search" }

/-- A query with empty `wordsCleaned` but a non-empty soundex. -/
def qdEmptyWords : QueryData :=
  { original := "", cleaned := "", no_space := "", soundex := "kfe1",
    wordsCleaned := [], wordsOriginal := [], wordsNoSpace := [] }

/-- A candidate whose phonetic tokens match `qdEmptyWords` exactly. -/
def hitKfe : Hit := { id := some "p1", name_soundex := some "kfe1" }

/-- A bare candidate carrying only an id. -/
def hitA : Hit := { id := some "a" }

/-- A candidate sitting at slightly negative latitude. -/
def hitGeoNeg : Hit := { geo := some { lat := some (-(1/20)), lng := some (1/4) } }

end SearchPy

namespace SearchPy

/-! ## Generic facts about the stable comparator sort -/

theorem orderedInsertCmp_perm (le : α → α → Bool) (a : α) :
    ∀ l : List α, (orderedInsertCmp le a l).Perm (a :: l)
  | [] => List.Perm.refl _
  | b :: l => by
      unfold orderedInsertCmp
      by_cases h : le a b = true
      · rw [if_pos h]
      · rw [if_neg h]
        exact ((orderedInsertCmp_perm le a l).cons b).trans (List.Perm.swap a b l)

theorem insertionSortCmp_perm (le : α → α → Bool) :
    ∀ l : List α, (insertionSortCmp le l).Perm l
  | [] => List.Perm.refl _
  | a :: l =>
      (orderedInsertCmp_perm le a (insertionSortCmp le l)).trans
        ((insertionSortCmp_perm le l).cons a)

theorem chain'_orderedInsertCmp {le : α → α → Bool}
    (total : ∀ a b, le a b = true ∨ le b a = true) (a : α) :
    ∀ l : List α, List.Chain' (fun x y => le x y = true) l →
      List.Chain' (fun x y => le x y = true) (orderedInsertCmp le a l)
  | [], _ => List.chain'_singleton a
  | b :: l, h => by
      unfold orderedInsertCmp
      by_cases hab : le a b = true
      · rw [if_pos hab]
        exact List.Chain'.cons hab h
      · rw [if_neg hab]
        have hba : le b a = true := (total a b).resolve_left hab
        match l, h with
        | [], _ =>
            unfold orderedInsertCmp
            exact List.Chain'.cons hba (List.chain'_singleton a)
        | c :: l', h =>
            have hbc : le b c = true := (List.chain'_cons.mp h).1
            have hcl : List.Chain' (fun x y => le x y = true) (c :: l') :=
              (List.chain'_cons.mp h).2
            have ih := chain'_orderedInsertCmp total a (c :: l') hcl
            by_cases hac : le a c = true
            · rw [show orderedInsertCmp le a (c :: l') = a :: c :: l' by
                simp only [orderedInsertCmp]; rw [if_pos hac]] at ih ⊢
              exact List.Chain'.cons hba ih
            · rw [show orderedInsertCmp le a (c :: l') = c :: orderedInsertCmp le a l' by
                simp only [orderedInsertCmp]; rw [if_neg hac]] at ih ⊢
              exact List.Chain'.cons hbc ih

theorem chain'_insertionSortCmp {le : α → α → Bool}
    (total : ∀ a b, le a b = true ∨ le b a = true) :
    ∀ l : List α, List.Chain' (fun x y => le x y = true) (insertionSortCmp le l)
  | [] => List.chain'_nil
  | a :: l => chain'_orderedInsertCmp total a _ (chain'_insertionSortCmp total l)

/-! ## Properties of the result comparator -/

theorem compare_penalty_indices_neg (a b : Penalties) :
    compare_penalty_indices a b = -compare_penalty_indices b a := by
  unfold compare_penalty_indices
  rw [abs_sub_comm b.extra_length_ratio a.extra_length_ratio,
    abs_sub_comm b.longueur_ratio a.longueur_ratio]
  split_ifs <;>
    first
      | omega
      | (exfalso
         rcases abs_cases (a.extra_length_ratio - b.extra_length_ratio) with ⟨h1e, h2e⟩ | ⟨h1e, h2e⟩ <;>
           rcases abs_cases (a.longueur_ratio - b.longueur_ratio) with ⟨h1l, h2l⟩ | ⟨h1l, h2l⟩ <;>
           linarith)

theorem penCmpOpt_neg (a b : Scored) : penCmpOpt a b = -penCmpOpt b a := by
  unfold penCmpOpt
  match a.penalty_indices, b.penalty_indices with
  | some pa, some pb => exact compare_penalty_indices_neg pa pb
  | some _, none => rfl
  | none, some _ => rfl
  | none, none => rfl

theorem listLtChar_asymm : ∀ x y : List Char, listLtChar x y = true → listLtChar y x = false := by
  intro x
  induction x with
  | nil =>
      intro y h
      cases y with
      | nil => exact absurd h (by decide)
      | cons b bs => rfl
  | cons a as ih =>
      intro y h
      cases y with
      | nil => simp [listLtChar] at h
      | cons b bs =>
          unfold listLtChar at h ⊢
          by_cases hab : a < b
          · rw [if_neg (not_lt_of_gt hab), if_pos hab]
          · rw [if_neg hab] at h
            by_cases hba : b < a
            · rw [if_pos hba] at h
              exact absurd h (by decide)
            · rw [if_neg hba] at h
              rw [if_neg hba, if_neg hab]
              exact ih bs h

theorem strLt_asymm {x y : String} (h : strLt x y = true) : strLt y x = false :=
  listLtChar_asymm x.data y.data h

theorem compare_results_score_ne {a b : Scored} (h : a.score ≠ b.score) :
    compare_results a b = if b.score < a.score then -1 else 1 := by
  unfold compare_results
  rw [if_pos h]

theorem compare_results_pri_ne {a b : Scored} (h1 : a.score = b.score)
    (h2 : a.match_priority ≠ b.match_priority) :
    compare_results a b = if a.match_priority < b.match_priority then -1 else 1 := by
  unfold compare_results
  rw [if_neg (by simp [h1]), if_pos h2]

theorem compare_results_pen {a b : Scored} (h1 : a.score = b.score)
    (h2 : a.match_priority = b.match_priority) (h3 : penCmpOpt a b ≠ 0) :
    compare_results a b = penCmpOpt a b := by
  unfold compare_results
  rw [if_neg (by simp [h1]), if_neg (by simp [h2]), if_pos h3]

theorem compare_results_id {a b : Scored} (h1 : a.score = b.score)
    (h2 : a.match_priority = b.match_priority) (h3 : penCmpOpt a b = 0) :
    compare_results a b =
      if strLt (sortId a) (sortId b) = true then -1
      else if strLt (sortId b) (sortId a) = true then 1 else 0 := by
  unfold compare_results
  rw [if_neg (by simp [h1]), if_neg (by simp [h2]), if_neg (by simp [h3])]

theorem compare_results_neg (a b : Scored) :
    compare_results b a = -compare_results a b := by
  by_cases h1 : a.score = b.score
  · by_cases h2 : a.match_priority = b.match_priority
    · by_cases h3 : penCmpOpt a b = 0
      · have h3' : penCmpOpt b a = 0 := by rw [penCmpOpt_neg b a, h3, neg_zero]
        rw [compare_results_id h1.symm h2.symm h3', compare_results_id h1 h2 h3]
        by_cases h4 : strLt (sortId a) (sortId b) = true
        · simp [h4, strLt_asymm h4]
        · by_cases h5 : strLt (sortId b) (sortId a) = true
          · simp [h5, strLt_asymm h5]
          · simp [h4, h5]
      · have h3' : penCmpOpt b a ≠ 0 := by
          rw [penCmpOpt_neg b a]
          omega
        rw [compare_results_pen h1.symm h2.symm h3', compare_results_pen h1 h2 h3]
        exact penCmpOpt_neg b a
    · rw [compare_results_pri_ne h1.symm (Ne.symm h2), compare_results_pri_ne h1 h2]
      rcases Nat.lt_trichotomy a.match_priority b.match_priority with h | h | h
      · simp [h, Nat.lt_asymm h]
      · exact absurd h h2
      · simp [h, Nat.lt_asymm h]
  · rw [compare_results_score_ne (Ne.symm h1), compare_results_score_ne h1]
    rcases lt_trichotomy a.score b.score with h | h | h
    · simp [h, lt_asymm h]
    · exact absurd h h1
    · simp [h, lt_asymm h]

theorem compare_results_total (a b : Scored) :
    compare_results a b ≤ 0 ∨ compare_results b a ≤ 0 := by
  rw [compare_results_neg a b]
  omega

theorem score_ge_of_compare_le {a b : Scored} (h : compare_results a b ≤ 0) :
    b.score ≤ a.score := by
  by_cases h1 : a.score = b.score
  · exact le_of_eq h1.symm
  · rw [compare_results_score_ne h1] at h
    by_cases h2 : b.score < a.score
    · exact le_of_lt h2
    · rw [if_neg h2] at h
      exact absurd h (by decide)

theorem sort_results_chain (l : List Scored) :
    List.Chain' (fun a b => compare_results a b ≤ 0) (sort_results l) := by
  have total : ∀ a b : Scored,
      (decide (compare_results a b ≤ 0)) = true ∨ (decide (compare_results b a ≤ 0)) = true := by
    intro a b
    rcases compare_results_total a b with h | h
    · exact Or.inl (decide_eq_true h)
    · exact Or.inr (decide_eq_true h)
  exact (chain'_insertionSortCmp total l).imp (fun _ _ hab => of_decide_eq_true hab)

theorem sort_results_perm (l : List Scored) : (sort_results l).Perm l :=
  insertionSortCmp_perm _ l

theorem filter_score_front (c : ℚ) :
    ∀ l : List Scored, List.Pairwise (fun a b => b.score ≤ a.score) l →
      (l.filter (fun s => decide (c ≤ s.score))) <+: l := by
  intro l
  induction l with
  | nil => intro _; exact List.nil_prefix
  | cons a t ih =>
      intro h
      rcases List.pairwise_cons.mp h with ⟨ha, ht⟩
      by_cases hc : c ≤ a.score
      · rw [List.filter_cons_of_pos (by simp [hc])]
        obtain ⟨u, hu⟩ := ih ht
        exact ⟨u, by rw [List.cons_append, hu]⟩
      · rw [List.filter_cons_of_neg (by simp [hc])]
        have hnil : t.filter (fun s => decide (c ≤ s.score)) = [] := by
          rw [List.filter_eq_nil_iff]
          intro x hx
          simp only [decide_eq_true_eq]
          intro hcx
          exact hc (le_trans hcx (ha x hx))
        rw [hnil]
        exact List.nil_prefix

theorem sorted_branch_chain (l : List Scored) (b : Bool) :
    List.Chain' (fun a b => compare_results a b ≤ 0)
      (if b then (sort_results l).filter (fun s => decide (EXACT_THRESHOLD ≤ s.score))
       else sort_results l) := by
  cases b
  · exact sort_results_chain l
  · simp only [if_pos]
    have hchain := sort_results_chain l
    have hscore : List.Chain' (fun a b : Scored => b.score ≤ a.score) (sort_results l) :=
      hchain.imp (fun _ _ hab => score_ge_of_compare_le hab)
    haveI : IsTrans Scored (fun a b : Scored => b.score ≤ a.score) :=
      ⟨fun _ _ _ h1 h2 => le_trans h2 h1⟩
    have hpair : List.Pairwise (fun a b : Scored => b.score ≤ a.score) (sort_results l) :=
      List.chain'_iff_pairwise.mp hscore
    exact hchain.prefix (filter_score_front EXACT_THRESHOLD _ hpair)

/-- C3: the hits list returned by `process_results` is ordered by the
multi-key comparator `compare_results` (score descending, then
`_match_priority` ascending, then — when both hits carry `_penalty_indices`
— the penalty tie-break with its epsilons, then id lexicographic
ascending): every adjacent pair `a, b` of the returned list satisfies
`compare_results a b ≤ 0`. -/
theorem process_results_sort_order (max_distance : Nat) (syns : SynTable)
    (all_results : List (String × List Hit)) (qd : QueryData) :
    List.Chain' (fun a b => compare_results a b ≤ 0)
      (process_results max_distance syns all_results qd).hits :=
  sorted_branch_chain _ _

/-- C2: exact short-circuit of `process_results`. Writing "survivors" for
the deduplicated, scored and `MIN_SCORE`-filtered hits: if some survivor
reaches `EXACT_THRESHOLD`, the output is exactly (a permutation of) the
survivors with score ≥ `EXACT_THRESHOLD`, with `has_exact_results = true`
and `exact_count` their number; otherwise the output is all survivors, with
`has_exact_results = false` and `exact_count = 0`. -/
theorem process_results_short_circuit (max_distance : Nat) (syns : SynTable)
    (all_results : List (String × List Hit)) (qd : QueryData) :
    ((∃ s ∈ ((deduplicate_results all_results).map
          (fun h => classify_result max_distance syns h qd)).filter
          (fun s => decide (MIN_SCORE ≤ s.score)), EXACT_THRESHOLD ≤ s.score) →
      (process_results max_distance syns all_results qd).hits.Perm
          ((((deduplicate_results all_results).map
              (fun h => classify_result max_distance syns h qd)).filter
              (fun s => decide (MIN_SCORE ≤ s.score))).filter
              (fun s => decide (EXACT_THRESHOLD ≤ s.score))) ∧
        (process_results max_distance syns all_results qd).has_exact_results = true ∧
        (process_results max_distance syns all_results qd).exact_count =
          ((((deduplicate_results all_results).map
              (fun h => classify_result max_distance syns h qd)).filter
              (fun s => decide (MIN_SCORE ≤ s.score))).filter
              (fun s => decide (EXACT_THRESHOLD ≤ s.score))).length) ∧
    ((¬ ∃ s ∈ ((deduplicate_results all_results).map
          (fun h => classify_result max_distance syns h qd)).filter
          (fun s => decide (MIN_SCORE ≤ s.score)), EXACT_THRESHOLD ≤ s.score) →
      (process_results max_distance syns all_results qd).hits.Perm
          (((deduplicate_results all_results).map
              (fun h => classify_result max_distance syns h qd)).filter
              (fun s => decide (MIN_SCORE ≤ s.score))) ∧
        (process_results max_distance syns all_results qd).has_exact_results = false ∧
        (process_results max_distance syns all_results qd).exact_count = 0) := by
  set E := ((deduplicate_results all_results).map
    (fun h => classify_result max_distance syns h qd)).filter
    (fun s => decide (MIN_SCORE ≤ s.score)) with hE
  have hperm : (sort_results E).Perm E := sort_results_perm E
  have hfperm : ((sort_results E).filter (fun s => decide (EXACT_THRESHOLD ≤ s.score))).Perm
      (E.filter (fun s => decide (EXACT_THRESHOLD ≤ s.score))) :=
    hperm.filter _
  constructor
  · intro hx
    obtain ⟨s, hsE, hs10⟩ := hx
    have hsF : s ∈ E.filter (fun s => decide (EXACT_THRESHOLD ≤ s.score)) :=
      List.mem_filter.mpr ⟨hsE, decide_eq_true hs10⟩
    have hlen : 0 < ((sort_results E).filter
        (fun s => decide (EXACT_THRESHOLD ≤ s.score))).length := by
      rw [hfperm.length_eq]
      exact List.length_pos.mpr (fun hnil => by rw [hnil] at hsF; exact absurd hsF (by simp))
    have hdec : decide (0 < ((sort_results E).filter
        (fun s => decide (EXACT_THRESHOLD ≤ s.score))).length) = true := decide_eq_true hlen
    refine ⟨?_, ?_, ?_⟩
    · show (if decide (0 < ((sort_results E).filter
          (fun s => decide (EXACT_THRESHOLD ≤ s.score))).length) = true
        then (sort_results E).filter (fun s => decide (EXACT_THRESHOLD ≤ s.score))
        else sort_results E).Perm _
      rw [if_pos hdec]
      exact hfperm
    · show decide (0 < ((sort_results E).filter
        (fun s => decide (EXACT_THRESHOLD ≤ s.score))).length) = true
      exact hdec
    · show ((sort_results E).filter (fun s => decide (EXACT_THRESHOLD ≤ s.score))).length = _
      exact hfperm.length_eq
  · intro hx
    have hnil : E.filter (fun s => decide (EXACT_THRESHOLD ≤ s.score)) = [] := by
      rw [List.filter_eq_nil_iff]
      intro s hs
      simp only [decide_eq_true_eq]
      intro h10
      exact hx ⟨s, hs, h10⟩
    have hlen : ((sort_results E).filter
        (fun s => decide (EXACT_THRESHOLD ≤ s.score))).length = 0 := by
      rw [hfperm.length_eq, hnil]
      rfl
    have hdec : decide (0 < ((sort_results E).filter
        (fun s => decide (EXACT_THRESHOLD ≤ s.score))).length) = false := by
      rw [hlen]
      rfl
    refine ⟨?_, ?_, ?_⟩
    · show (if decide (0 < ((sort_results E).filter
          (fun s => decide (EXACT_THRESHOLD ≤ s.score))).length) = true
        then (sort_results E).filter (fun s => decide (EXACT_THRESHOLD ≤ s.score))
        else sort_results E).Perm E
      rw [hdec]
      exact hperm
    · show decide (0 < ((sort_results E).filter
        (fun s => decide (EXACT_THRESHOLD ≤ s.score))).length) = false
      exact hdec
    · show ((sort_results E).filter (fun s => decide (EXACT_THRESHOLD ≤ s.score))).length = 0
      exact hlen

set_option maxRecDepth 40000 in
/-- Witness for C2: the exact branch of the short-circuit at scenario S1
(query "petit resto" against a candidate "Petit Resto" scoring 12 ≥ 10). -/
theorem process_results_short_circuit_witness :
    (∃ s ∈ ((deduplicate_results [("name_search", [hitS1])]).map
        (fun h => classify_result 4 [] h qdS1)).filter
        (fun s => decide (MIN_SCORE ≤ s.score)), EXACT_THRESHOLD ≤ s.score) ∧
    ((process_results 4 [] [("name_search", [hitS1])] qdS1).hits.Perm
        ((((deduplicate_results [("name_search", [hitS1])]).map
            (fun h => classify_result 4 [] h qdS1)).filter
            (fun s => decide (MIN_SCORE ≤ s.score))).filter
            (fun s => decide (EXACT_THRESHOLD ≤ s.score))) ∧
      (process_results 4 [] [("name_search", [hitS1])] qdS1).has_exact_results = true ∧
      (process_results 4 [] [("name_search", [hitS1])] qdS1).exact_count =
        ((((deduplicate_results [("name_search", [hitS1])]).map
            (fun h => classify_result 4 [] h qdS1)).filter
            (fun s => decide (MIN_SCORE ≤ s.score))).filter
            (fun s => decide (EXACT_THRESHOLD ≤ s.score))).length) := by
  have hx : ∃ s ∈ ((deduplicate_results [("name_search", [hitS1])]).map
      (fun h => classify_result 4 [] h qdS1)).filter
      (fun s => decide (MIN_SCORE ≤ s.score)), EXACT_THRESHOLD ≤ s.score :=
    of_decide_eq_true (by with_unfolding_all rfl)
  exact ⟨hx, (process_results_short_circuit 4 [] [("name_search", [hitS1])] qdS1).1 hx⟩

/-! ## Alignment uniqueness (claim C9) -/

theorem findBestGo_notin (max_distance : Nat) (syns : SynTable) (qw : String)
    (used : List Nat) :
    ∀ (l : List (Nat × String)) (best : Option BestMatch) (b : BestMatch),
      (∀ b0, best = some b0 → b0.position ∉ used) →
      findBestGo max_distance syns qw used l best = some b → b.position ∉ used := by
  intro l
  induction l with
  | nil =>
      intro best b hb hres
      exact hb b hres
  | cons p rest ih =>
      intro best b hb hres
      unfold findBestGo at hres
      by_cases hp : p.1 ∈ used
      · rw [if_pos hp] at hres
        exact ih best b hb hres
      · rw [if_neg hp] at hres
        dsimp only at hres
        by_cases h1 : (calculate_word_match max_distance syns qw p.2).distance <
            bestDistance max_distance best
        · rw [if_pos h1] at hres
          by_cases h2 : (calculate_word_match max_distance syns qw p.2).distance = 0
          · rw [if_pos h2] at hres
            cases hres
            exact hp
          · rw [if_neg h2] at hres
            refine ih _ b ?_ hres
            intro b0 hb0
            cases hb0
            exact hp
        · rw [if_neg h1] at hres
          exact ih best b hb hres

theorem evalLoop_notin (max_distance : Nat) (syns : SynTable) (cands : List String) :
    ∀ (qs : List String) (used : List Nat) (a : Alignment),
      a ∈ (evalLoop max_distance syns cands qs used).1 → a.position ∉ used := by
  intro qs
  induction qs with
  | nil =>
      intro used a ha
      simp [evalLoop] at ha
  | cons q qs ih =>
      intro used a ha
      unfold evalLoop at ha
      cases hfb : find_best_word_match max_distance syns q cands used with
      | none =>
          rw [hfb] at ha
          exact ih used a ha
      | some b =>
          rw [hfb] at ha
          dsimp only at ha
          have hbpos : b.position ∉ used :=
            findBestGo_notin max_distance syns q used _ none b (by intro b0 h; cases h) hfb
          by_cases hd : b.distance ≤ max_distance
          · rw [if_pos hd] at ha
            dsimp only at ha
            rcases List.mem_cons.mp ha with rfl | ha'
            · exact hbpos
            · have := ih (b.position :: used) a ha'
              intro hin
              exact this (List.mem_cons_of_mem _ hin)
          · rw [if_neg hd] at ha
            dsimp only at ha
            have := ih (b.position :: used) a ha
            intro hin
            exact this (List.mem_cons_of_mem _ hin)

theorem evalLoop_nodup (max_distance : Nat) (syns : SynTable) (cands : List String) :
    ∀ (qs : List String) (used : List Nat),
      ((evalLoop max_distance syns cands qs used).1.map (fun a => a.position)).Nodup := by
  intro qs
  induction qs with
  | nil =>
      intro used
      simp [evalLoop]
  | cons q qs ih =>
      intro used
      unfold evalLoop
      cases hfb : find_best_word_match max_distance syns q cands used with
      | none => exact ih used
      | some b =>
          dsimp only
          by_cases hd : b.distance ≤ max_distance
          · rw [if_pos hd]
            dsimp only
            refine List.Nodup.cons ?_ (ih (b.position :: used))
            intro hmem
            rcases List.mem_map.mp hmem with ⟨a, ha, hpos⟩
            have := evalLoop_notin max_distance syns cands qs (b.position :: used) a ha
            exact this (by rw [hpos]; exact List.mem_cons_self _ _)
          · rw [if_neg hd]
            dsimp only
            exact ih (b.position :: used)

/-- C9: within one field evaluation, every candidate position appears in at
most one recorded alignment — the positions of the `found` list are
pairwise distinct, so no candidate position is assigned to two query words
and a consumed position is never matched again. -/
theorem evaluate_field_alignment_unique (max_distance : Nat) (syns : SynTable)
    (query_words candidate_words : List String) (query_text : String) :
    (((evaluate_field max_distance syns query_words candidate_words query_text).found).map
      (fun a => a.position)).Nodup :=
  evalLoop_nodup max_distance syns candidate_words query_words []

/-! ## The strict phonetic scan (claim C5) -/

theorem phonPickGo_strict_go (q : String) (used : List Nat) :
    ∀ (l : List (Nat × String)) (b : Option Nat),
      phonPickGo false q used l (b.map (fun i => (i, false))) =
        (match phonPickSpec q used l with
         | some i => some i
         | none => b).map (fun i => (i, false)) := by
  intro l
  induction l with
  | nil =>
      intro b
      unfold phonPickGo phonPickSpec
      simp
  | cons p rest ih =>
      intro b
      unfold phonPickGo phonPickSpec
      by_cases hp : p.1 ∈ used
      · rw [if_pos hp]
        have hfree : decide (p.1 ∉ used) = false := by simp [hp]
        rw [List.filter_cons_of_neg (by simp [hfree])]
        exact ih b
      · rw [if_neg hp]
        have hfree : decide (p.1 ∉ used) = true := by simp [hp]
        rw [List.filter_cons_of_pos (by simp [hfree])]
        dsimp only
        by_cases heq : q = p.2
        · rw [if_pos heq]
          rw [List.find?_cons_of_pos _ (by simp [heq])]
          rfl
        · rw [if_neg heq]
          rw [List.find?_cons_of_neg _
            (by simp only [beq_iff_eq]; exact fun h => heq h.symm)]
          by_cases hacc : phonAccept q p.2 = true
          · rw [if_pos hacc]
            rw [List.filter_cons_of_pos (by simp [hacc])]
            have hstep := ih (some p.1)
            rw [show (some p.1).map (fun i => (i, false)) = some (p.1, false) from rfl] at hstep
            rw [hstep]
            rw [List.getLast?_cons]
            rw [show phonPickSpec q used rest =
                (match (rest.filter (fun p => decide (p.1 ∉ used))).find?
                    (fun p => p.2 == q) with
                 | some r => some r.1
                 | none => ((rest.filter (fun p => decide (p.1 ∉ used))).filter
                     (fun p => phonAccept q p.2)).getLast?.map (fun r => r.1)) from rfl]
            cases hfe : (rest.filter (fun p => decide (p.1 ∉ used))).find?
                (fun p => p.2 == q) with
            | some r => rfl
            | none =>
                cases hgl : ((rest.filter (fun p => decide (p.1 ∉ used))).filter
                    (fun p => phonAccept q p.2)).getLast? with
                | some r => rfl
                | none => rfl
          · rw [if_neg hacc]
            rw [show (false && tolerantAccept q p.2) = false from rfl]
            rw [if_neg (by simp)]
            rw [List.filter_cons_of_neg (by simp [hacc])]
            exact ih b

/-- C5 (amended): in the strict phonetic pass, for each query token the scan
over unused candidate positions returns the first candidate equal to the
query token if one exists (the scan breaks there); otherwise — because a
prefix match records the index but lets the scan continue — it returns the
LAST unused prefix-acceptable candidate, not the first. -/
theorem phonPick_strict_first_eq_last_prefix (q : String) (used : List Nat)
    (l : List (Nat × String)) :
    phonPickGo false q used l none = (phonPickSpec q used l).map (fun i => (i, false)) := by
  have := phonPickGo_strict_go q used l none
  rw [show (Option.map (fun i => (i, false)) (none : Option Nat)) = none from rfl] at this
  rw [this]
  cases phonPickSpec q used l <;> rfl

set_option maxRecDepth 40000 in
/-- Counterexample to C5 as stated: with query tokens `["abcd", "abcdy"]`
and candidate tokens `["abcdx", "abcdy"]`, the source's strict pass lets the
prefix scan run on and consumes position 1 for the first query token, so
only 1 token matches; under the claimed first-accept-wins semantics the
first query token would take position 0 and both tokens would match. -/
theorem phonetic_first_accept_counterexample :
    (match_phonetic_tokens ["abcd", "abcdy"] ["abcdx", "abcdy"] false).found = 1 ∧
    match_tokens_first_accept ["abcd", "abcdy"] ["abcdx", "abcdy"] = 2 ∧
    (1 : Nat) ≠ 2 :=
  of_decide_eq_true (by with_unfolding_all rfl)

/-! ## Synonym semantics (claim C4) -/

set_option maxRecDepth 40000 in
/-- Counterexample to C4 as stated: the evaluator treats "asiatique" and
"oriental" as a distance-0 synonym pair (both sit in the `chinois` row of
`SYNONYMS_FR`), but the single flattened reverse lookup the claim describes
sends "asiatique" to `chinois` and "oriental" to `libanais` (the `libanais`
row overwrites the earlier insertion), so the lookup images differ. -/
theorem synonym_flattened_lookup_counterexample :
    (calculate_word_match 4 SYNONYMS_FR "asiatique" "oriental").distance = 0 ∧
    (calculate_word_match 4 SYNONYMS_FR "asiatique" "oriental").type = "synonym" ∧
    flattenedLookup SYNONYMS_FR "asiatique" = some "chinois" ∧
    flattenedLookup SYNONYMS_FR "oriental" = some "libanais" ∧
    flattenedLookup SYNONYMS_FR "asiatique" ≠ flattenedLookup SYNONYMS_FR "oriental" :=
  of_decide_eq_true (by with_unfolding_all rfl)

/-- C4 (amended): two words are treated as synonyms iff SOME single row of
the configured table contains both of them (lowercased, as base or
variant); the relation is symmetric, and for words with distinct lowercase
forms it is exactly the distance-0 `synonym` outcome of
`calculate_word_match`. It is not induced by one flattened lookup, and it
is not transitive. -/
theorem apply_synonyms_row_membership (syns : SynTable) (w1 w2 : String) :
    ((apply_synonyms syns w1 w2).isSome ↔
      ∃ r ∈ syns, (strLower w1 = r.1 ∨ strLower w1 ∈ r.2) ∧
        (strLower w2 = r.1 ∨ strLower w2 ∈ r.2)) ∧
    ((apply_synonyms syns w1 w2).isSome ↔ (apply_synonyms syns w2 w1).isSome) ∧
    (∀ max_distance : Nat, strLower w1 ≠ strLower w2 →
      (((calculate_word_match max_distance syns w1 w2).type = "synonym" ∧
        (calculate_word_match max_distance syns w1 w2).distance = 0) ↔
        (apply_synonyms syns (strLower w1) (strLower w2)).isSome = true)) := by
  have hchar : ∀ v1 v2 : String,
      (apply_synonyms syns v1 v2).isSome = true ↔
      ∃ r ∈ syns, (strLower v1 = r.1 ∨ strLower v1 ∈ r.2) ∧
        (strLower v2 = r.1 ∨ strLower v2 ∈ r.2) := by
    intro v1 v2
    unfold apply_synonyms
    dsimp only
    cases hf : syns.find? (fun r =>
        (strLower v1 == r.1 || r.2.contains (strLower v1)) &&
        (strLower v2 == r.1 || r.2.contains (strLower v2))) with
    | some r =>
        simp only [Option.isSome_some, true_iff]
        have hr := List.find?_some hf
        have hmem := List.mem_of_find?_eq_some hf
        refine ⟨r, hmem, ?_⟩
        simp only [Bool.and_eq_true, Bool.or_eq_true, beq_iff_eq,
          List.elem_iff] at hr
        exact hr
    | none =>
        simp only [Option.isSome_none, Bool.false_eq_true, false_iff]
        rintro ⟨r, hmem, h1, h2⟩
        have := List.find?_eq_none.mp hf r hmem
        simp only [Bool.and_eq_true, Bool.or_eq_true, beq_iff_eq,
          List.elem_iff] at this
        exact this ⟨h1, h2⟩
  refine ⟨hchar w1 w2, ?_, ?_⟩
  · rw [hchar w1 w2, hchar w2 w1]
    constructor
    · rintro ⟨r, hm, h1, h2⟩
      exact ⟨r, hm, h2, h1⟩
    · rintro ⟨r, hm, h1, h2⟩
      exact ⟨r, hm, h2, h1⟩
  · intro max_distance hne
    unfold calculate_word_match
    dsimp only
    rw [if_neg hne]
    by_cases hs : (apply_synonyms syns (strLower w1) (strLower w2)).isSome = true
    · rw [if_pos hs]
      simp [hs]
    · rw [if_neg hs]
      simp [hs]

set_option maxRecDepth 40000 in
/-- Witness for C4 (amended) at the concrete pair ("asiatique", "oriental")
with the configured table and `max_distance = 4`. -/
theorem apply_synonyms_row_membership_witness :
    strLower "asiatique" ≠ strLower "oriental" ∧
    (((calculate_word_match 4 SYNONYMS_FR "asiatique" "oriental").type = "synonym" ∧
      (calculate_word_match 4 SYNONYMS_FR "asiatique" "oriental").distance = 0) ↔
      (apply_synonyms SYNONYMS_FR (strLower "asiatique")
        (strLower "oriental")).isSome = true) :=
  ⟨of_decide_eq_true (by with_unfolding_all rfl),
   (apply_synonyms_row_membership SYNONYMS_FR "asiatique" "oriental").2.2 4
     (of_decide_eq_true (by with_unfolding_all rfl))⟩

/-! ## Geographic grid cells (claim C7) -/

theorem insertCell_lookup_self (k : String) (h : Hit) :
    ∀ cells : List (String × List Hit),
      (insertCell cells k h).lookup k = some (((cells.lookup k).getD []) ++ [h]) := by
  intro cells
  induction cells with
  | nil => simp [insertCell, List.lookup]
  | cons c rest ih =>
      obtain ⟨k0, l⟩ := c
      unfold insertCell
      by_cases hk : k0 = k
      · rw [if_pos hk]
        subst hk
        simp [List.lookup]
      · rw [if_neg hk]
        have hbeq : (k == k0) = false := by
          simp only [beq_eq_false_iff_ne, ne_eq]
          exact fun he => hk he.symm
        simp only [List.lookup, hbeq]
        exact ih

theorem insertCell_lookup_other (k k' : String) (h : Hit) (hne : k' ≠ k) :
    ∀ cells : List (String × List Hit),
      (insertCell cells k h).lookup k' = cells.lookup k' := by
  intro cells
  induction cells with
  | nil =>
      simp only [insertCell, List.lookup]
      simp [beq_eq_false_iff_ne.mpr hne]
  | cons c rest ih =>
      obtain ⟨k0, l⟩ := c
      unfold insertCell
      by_cases hk : k0 = k
      · rw [if_pos hk]
        subst hk
        simp [List.lookup, beq_eq_false_iff_ne.mpr hne]
      · rw [if_neg hk]
        simp only [List.lookup]
        cases hbeq : k' == k0
        · exact ih
        · rfl

theorem groupCells_go_preserved (g : ℚ) :
    ∀ (hits : List Hit) (cells : List (String × List Hit)) (key : String) (x : Hit)
      (l0 : List Hit),
      cells.lookup key = some l0 → x ∈ l0 →
      ∃ l, (hits.foldl (fun cells h =>
          match GeoPoint.from_dict h with
          | some p => insertCell cells (get_grid_cell g p) h
          | none => cells) cells).lookup key = some l ∧ x ∈ l := by
  intro hits
  induction hits with
  | nil =>
      intro cells key x l0 hl hx
      exact ⟨l0, hl, hx⟩
  | cons h0 rest ih =>
      intro cells key x l0 hl hx
      rw [List.foldl_cons]
      cases hp : GeoPoint.from_dict h0 with
      | none =>
          dsimp only [hp]
          exact ih cells key x l0 hl hx
      | some p =>
          dsimp only [hp]
          by_cases hkey : key = get_grid_cell g p
          · subst hkey
            refine ih _ (get_grid_cell g p) x
              (((cells.lookup (get_grid_cell g p)).getD []) ++ [h0])
              (insertCell_lookup_self (get_grid_cell g p) h0 cells) ?_
            rw [hl]
            exact List.mem_append_left _ hx
          · exact ih _ key x l0
              (by rw [insertCell_lookup_other _ _ _ hkey cells]; exact hl) hx

theorem groupCells_go_mem (g : ℚ) :
    ∀ (hits : List Hit) (cells : List (String × List Hit)) (h : Hit) (p : GeoPoint),
      h ∈ hits → GeoPoint.from_dict h = some p →
      ∃ l, (hits.foldl (fun cells h =>
          match GeoPoint.from_dict h with
          | some p => insertCell cells (get_grid_cell g p) h
          | none => cells) cells).lookup (get_grid_cell g p) = some l ∧ h ∈ l := by
  intro hits
  induction hits with
  | nil =>
      intro cells h p hm
      exact absurd hm (List.not_mem_nil h)
  | cons h0 rest ih =>
      intro cells h p hm hp
      rw [List.foldl_cons]
      rcases List.mem_cons.mp hm with rfl | hm'
      · rw [hp]
        dsimp only
        refine groupCells_go_preserved g rest _ (get_grid_cell g p) h
          (((cells.lookup (get_grid_cell g p)).getD []) ++ [h])
          (insertCell_lookup_self _ h cells) ?_
        exact List.mem_append_right _ (List.mem_singleton.mpr rfl)
      · cases hp0 : GeoPoint.from_dict h0 with
        | none =>
            dsimp only
            exact ih cells h p hm' hp
        | some p0 =>
            dsimp only
            exact ih _ h p hm' hp

set_option maxRecDepth 40000 in
/-- Counterexample to C7 as stated: at grid size `0.1`, a hit at latitude
`-0.05`, longitude `0.25` is assigned the cell `"0_2"` (Python `int()`
truncates toward zero), while the floor-based key the claim describes is
`"-1_2"`. -/
theorem geo_grid_cell_counterexample :
    get_grid_cell (1/10) ⟨-(1/20), (1/4)⟩ = "0_2" ∧
    toString (⌊((-(1/20) : ℚ)) / (1/10)⌋) ++ "_" ++ toString (⌊((1/4) : ℚ) / (1/10)⌋) =
      "-1_2" ∧
    ("0_2" : String) ≠ "-1_2" ∧
    (groupCells (1/10) [hitGeoNeg]).lookup "0_2" = some [hitGeoNeg] ∧
    (groupCells (1/10) [hitGeoNeg]).lookup "-1_2" = none :=
  of_decide_eq_true (by with_unfolding_all rfl)

/-- C7 (amended): the geo disperser groups every hit with a usable point
under the cell key built from TRUNCATION toward zero of `lat/g` and
`lng/g` (Python's `int()`), which coincides with floor exactly on
nonnegative quotients; on negative quotients it is the ceiling. -/
theorem geo_grid_cell_amended (g : ℚ) (hits : List Hit) (h : Hit) (p : GeoPoint)
    (hm : h ∈ hits) (hp : GeoPoint.from_dict h = some p) :
    (∃ l, (groupCells g hits).lookup
        (toString (truncQ (p.lat / g)) ++ "_" ++ toString (truncQ (p.lng / g))) = some l ∧
      h ∈ l) ∧
    (∀ x : ℚ, 0 ≤ x → truncQ x = ⌊x⌋) ∧
    (∀ x : ℚ, x < 0 → truncQ x = ⌈x⌉) := by
  refine ⟨?_, ?_, ?_⟩
  · exact groupCells_go_mem g hits [] h p hm hp
  · intro x hx
    unfold truncQ
    rw [if_pos hx]
  · intro x hx
    unfold truncQ
    rw [if_neg (not_le_of_lt hx)]

set_option maxRecDepth 40000 in
/-- Witness for C7 (amended) at the concrete hit at `(-0.05, 0.25)` with
grid size `0.1`. -/
theorem geo_grid_cell_amended_witness :
    hitGeoNeg ∈ [hitGeoNeg] ∧ GeoPoint.from_dict hitGeoNeg = some ⟨-(1/20), (1/4)⟩ ∧
    ((∃ l, (groupCells (1/10) [hitGeoNeg]).lookup
        (toString (truncQ ((-(1/20) : ℚ) / (1/10))) ++ "_" ++
          toString (truncQ (((1/4) : ℚ) / (1/10)))) = some l ∧ hitGeoNeg ∈ l) ∧
      (∀ x : ℚ, 0 ≤ x → truncQ x = ⌊x⌋) ∧
      (∀ x : ℚ, x < 0 → truncQ x = ⌈x⌉)) :=
  ⟨List.mem_singleton.mpr rfl,
   of_decide_eq_true (by with_unfolding_all rfl),
   geo_grid_cell_amended (1/10) [hitGeoNeg] hitGeoNeg ⟨-(1/20), (1/4)⟩
     (List.mem_singleton.mpr rfl)
     (of_decide_eq_true (by with_unfolding_all rfl))⟩

/-! ## In-place stamping by deduplication (claim C8) -/

theorem lookup_append (a : String) {β : Type} :
    ∀ l1 l2 : List (String × β),
      (l1 ++ l2).lookup a = match l1.lookup a with
        | some v => some v
        | none => l2.lookup a := by
  intro l1 l2
  induction l1 with
  | nil => rfl
  | cons c rest ih =>
      obtain ⟨k, v⟩ := c
      simp only [List.cons_append, List.lookup]
      cases a == k
      · exact ih
      · rfl

theorem lookup_eq_of_mem_nodup {β : Type} :
    ∀ {l : List (String × β)} {p : String × β},
      p ∈ l → (l.map (fun q => q.1)).Nodup → l.lookup p.1 = some p.2 := by
  intro l
  induction l with
  | nil => intro p hp _; exact absurd hp (List.not_mem_nil p)
  | cons c rest ih =>
      intro p hp hnd
      rcases List.mem_cons.mp hp with rfl | hp'
      · simp [List.lookup]
      · obtain ⟨k, v⟩ := c
        simp only [List.map_cons, List.nodup_cons] at hnd
        have hne : p.1 ≠ k := by
          intro he
          exact hnd.1 (by rw [← he]; exact List.mem_map.mpr ⟨p, hp', rfl⟩)
        simp only [List.lookup, beq_eq_false_iff_ne.mpr hne]
        exact ih hp' hnd.2

theorem stampList_go_core (strategy : String) :
    ∀ (hits : List Hit) (acc : List Hit × List String),
      ((hits.foldl (fun (acc : List Hit × List String) h =>
          let key := dedupKey h
          if key ∈ acc.2 then (acc.1 ++ [h], acc.2)
          else (acc.1 ++ [{ h with discovery_strategy := some strategy }],
            key :: acc.2)) acc).1).map coreOf
        = acc.1.map coreOf ++ hits.map coreOf := by
  intro hits
  induction hits with
  | nil =>
      intro acc
      simp
  | cons h0 rest ih =>
      intro acc
      rw [List.foldl_cons]
      dsimp only
      by_cases hk : dedupKey h0 ∈ acc.2
      · rw [if_pos hk, ih]
        simp [coreOf]
      · rw [if_neg hk, ih]
        simp [coreOf]

theorem stampList_core (strategy : String) (seen : List String) (hits : List Hit) :
    (stampList strategy seen hits).1.map coreOf = hits.map coreOf := by
  unfold stampList
  rw [stampList_go_core strategy hits ([], seen)]
  rfl

theorem dedup_step_core (all_results : List (String × List Hit)) :
    ∀ (strats : List String) (acc : List (String × List Hit) × List String),
      (∀ s hs, acc.1.lookup s = some hs →
        ∃ h0, all_results.lookup s = some h0 ∧ hs.map coreOf = h0.map coreOf) →
      ∀ s hs, ((strats.foldl (fun (acc : List (String × List Hit) × List String) strategy =>
          match all_results.lookup strategy with
          | none => acc
          | some hits =>
              let r := stampList strategy acc.2 hits
              (acc.1 ++ [(strategy, r.1)], r.2)) acc).1).lookup s = some hs →
        ∃ h0, all_results.lookup s = some h0 ∧ hs.map coreOf = h0.map coreOf := by
  intro strats
  induction strats with
  | nil =>
      intro acc hinv s hs hl
      exact hinv s hs hl
  | cons st rest ih =>
      intro acc hinv s hs hl
      rw [List.foldl_cons] at hl
      cases hall : all_results.lookup st with
      | none =>
          rw [hall] at hl
          exact ih acc hinv s hs hl
      | some hits =>
          rw [hall] at hl
          refine ih _ ?_ s hs hl
          intro s' hs' hl'
          rw [lookup_append] at hl'
          cases hacc : acc.1.lookup s' with
          | some v =>
              rw [hacc] at hl'
              dsimp only at hl'
              injection hl' with he
              subst he
              exact hinv s' v hacc
          | none =>
              rw [hacc] at hl'
              dsimp only at hl'
              by_cases hs'eq : s' = st
              · subst hs'eq
                simp only [List.lookup, beq_self_eq_true] at hl'
                injection hl' with he
                subst he
                exact ⟨hits, hall, stampList_core s' acc.2 hits⟩
              · simp only [List.lookup, beq_eq_false_iff_ne.mpr hs'eq] at hl'
                exact Option.noConfusion hl'

/-- C8 (amended): `deduplicate_results` stamps `_discovery_strategy` in
place on the caller's own records — after the call a selected input hit
carries the key — but no other field of any input record is changed: the
post-call input lists agree with the originals once `discovery_strategy` is
erased. The other scoring keys (`_score`, `_match_type`, `_match_method`,
`_match_priority`, `_capped`) are added by `classify_result` on a copy
(`hit.copy()`), so they never land on the records passed in. -/
theorem dedup_inputs_core_preserved (all_results : List (String × List Hit))
    (hnodup : (all_results.map (fun p => p.1)).Nodup) :
    (dedupInputsAfter all_results).map (fun p => (p.1, p.2.map coreOf)) =
      all_results.map (fun p => (p.1, p.2.map coreOf)) := by
  unfold dedupInputsAfter
  dsimp only
  rw [List.map_map]
  apply List.map_congr_left
  intro p hp
  simp only [Function.comp]
  cases hl : (priority_order.foldl (fun (acc : List (String × List Hit) × List String) strategy =>
      match all_results.lookup strategy with
      | none => acc
      | some hits =>
          let r := stampList strategy acc.2 hits
          (acc.1 ++ [(strategy, r.1)], r.2)) ([], [])).1.lookup p.1 with
  | none => rfl
  | some hs =>
      obtain ⟨h0, hall, hcore⟩ :=
        dedup_step_core all_results priority_order ([], [])
          (by intro s hs h; cases h) p.1 hs hl
      have : all_results.lookup p.1 = some p.2 := lookup_eq_of_mem_nodup hp hnodup
      rw [this] at hall
      cases hall
      simp only []
      rw [hcore]

set_option maxRecDepth 40000 in
/-- Counterexample to C8 as stated: after `deduplicate_results` runs on a
single strategy list containing one record, that very input record carries
`_discovery_strategy` — the annotation is written in place on the record
passed in, not only on returned copies. -/
theorem dedup_input_mutation_counterexample :
    dedupInputsAfter [("name_search", [hitA])] =
      [("name_search", [{ hitA with discovery_strategy := some "name_search" }])] ∧
    dedupInputsAfter [("name_search", [hitA])] ≠ [("name_search", [hitA])] :=
  of_decide_eq_true (by with_unfolding_all rfl)

set_option maxRecDepth 40000 in
/-- Witness for C8 (amended) on a one-strategy, one-hit input. -/
theorem dedup_inputs_core_preserved_witness :
    ((([("name_search", [hitA])] : List (String × List Hit)).map (fun p => p.1)).Nodup) ∧
    (dedupInputsAfter [("name_search", [hitA])]).map (fun p => (p.1, p.2.map coreOf)) =
      ([("name_search", [hitA])] : List (String × List Hit)).map
        (fun p => (p.1, p.2.map coreOf)) :=
  ⟨of_decide_eq_true (by with_unfolding_all rfl),
   dedup_inputs_core_preserved [("name_search", [hitA])]
     (of_decide_eq_true (by with_unfolding_all rfl))⟩

/-! ## Phonetic score bounds -/

theorem phonCap_nonneg {ratio s : ℚ} (hs : 0 ≤ s) : 0 ≤ phonCap ratio s := by
  unfold phonCap
  split_ifs
  · exact le_min (by norm_num) hs
  · exact le_min (by norm_num) hs
  · exact le_min (by norm_num) hs

theorem phonCap_le {ratio s : ℚ} : phonCap ratio s ≤ 15/2 := by
  unfold phonCap
  split_ifs
  · exact min_le_left _ _
  · exact le_trans (min_le_left _ _) (by norm_num)
  · exact le_trans (min_le_left _ _) (by norm_num)

theorem calculate_phonetic_score_bounds (hit : Hit) (qd : QueryData) (p : PhonScore)
    (hp : calculate_phonetic_score hit qd = some p) : 0 ≤ p.score ∧ p.score ≤ 15/2 := by
  unfold calculate_phonetic_score at hp
  dsimp only at hp
  have hr8 : ∀ m n : Nat, (0 : ℚ) ≤ 8 * ((m : ℚ) / (n : ℚ)) := by
    intro m n
    exact mul_nonneg (by norm_num) (div_nonneg (Nat.cast_nonneg m) (Nat.cast_nonneg n))
  split_ifs at hp with h1 h2 h3 h4
  all_goals
    first
      | exact Option.noConfusion hp
      | (cases hp; exact ⟨phonCap_nonneg (hr8 _ _), phonCap_le⟩)

/-! ## Empty query (claim C6) -/

theorem classify_result_no_cap (max_distance : Nat) (syns : SynTable) (hit : Hit)
    (qd : QueryData)
    (h : (calculate_final_score
        (some (mainToArg (calculate_main_score max_distance syns hit qd)))
        (calculate_phonetic_score hit qd)).score < EXACT_THRESHOLD) :
    classify_result max_distance syns hit qd =
      { hit := hit,
        score := (calculate_final_score
          (some (mainToArg (calculate_main_score max_distance syns hit qd)))
          (calculate_phonetic_score hit qd)).score,
        match_type := (calculate_final_score
          (some (mainToArg (calculate_main_score max_distance syns hit qd)))
          (calculate_phonetic_score hit qd)).type,
        match_method := (calculate_final_score
          (some (mainToArg (calculate_main_score max_distance syns hit qd)))
          (calculate_phonetic_score hit qd)).method,
        match_priority := typePriority (calculate_final_score
          (some (mainToArg (calculate_main_score max_distance syns hit qd)))
          (calculate_phonetic_score hit qd)).type,
        capped := false } := by
  unfold classify_result
  dsimp only
  rw [if_neg (fun hc => absurd hc.2 (not_le_of_lt h))]

theorem final_score_zero_text (mt : String) (phon : Option PhonScore) :
    calculate_final_score (some ⟨some 0, some mt⟩) phon =
      if 0 < (match phon with | some p => p.score | none => (0 : ℚ)) then
        { score := (match phon with | some p => p.score | none => 0),
          type := (match phon with | some p => p.match_type | none => "phonetic"),
          method := "phonetic_fallback" }
      else { score := 0, type := mt, method := "text_only" } := by
  unfold calculate_final_score
  dsimp only
  rw [if_neg (by norm_num)]
  rw [if_neg (by rintro ⟨h, _⟩; norm_num at h)]
  rfl

/-- C6 (amended): with an empty `wordsCleaned`, the main score is 0 with
`match_type = partial`, and that is exactly what the pipeline returns for a
hit — UNLESS the hit has a positive phonetic score, in which case
`calculate_final_score` falls back to the phonetic result: the hit gets the
phonetic score and phonetic match type with method `phonetic_fallback`,
regardless of the empty textual query. -/
theorem empty_query_classification (max_distance : Nat) (syns : SynTable)
    (hit : Hit) (qd : QueryData) (hempty : qd.wordsCleaned = []) :
    (calculate_phonetic_score hit qd = none →
      (classify_result max_distance syns hit qd).score = 0 ∧
      (classify_result max_distance syns hit qd).match_type = "partial" ∧
      (classify_result max_distance syns hit qd).match_method = "text_only") ∧
    (∀ p, calculate_phonetic_score hit qd = some p →
      (p.score ≤ 0 →
        (classify_result max_distance syns hit qd).score = 0 ∧
        (classify_result max_distance syns hit qd).match_type = "partial") ∧
      (0 < p.score →
        (classify_result max_distance syns hit qd).score = p.score ∧
        (classify_result max_distance syns hit qd).match_type = p.match_type ∧
        (classify_result max_distance syns hit qd).match_method = "phonetic_fallback")) := by
  have hmain : calculate_main_score max_distance syns hit qd =
      { name_search_score := 0, no_space_score := 0, base_score := 0, name_score := 0
        total_score := 0, winning_strategy := "none", penalty_indices := none
        all_words_found := false, match_type := "partial",
        match_priority := typePriority "partial" } := by
    unfold calculate_main_score
    rw [if_pos hempty]
  have harg : mainToArg (calculate_main_score max_distance syns hit qd) =
      (⟨some 0, some "partial"⟩ : MainArg) := by
    rw [hmain]
    rfl
  constructor
  · intro hnone
    have hfin : calculate_final_score
        (some (mainToArg (calculate_main_score max_distance syns hit qd)))
        (calculate_phonetic_score hit qd) =
        { score := 0, type := "partial", method := "text_only" } := by
      rw [hnone, harg, final_score_zero_text]
      rw [if_neg (by dsimp only; norm_num)]
    rw [classify_result_no_cap max_distance syns hit qd
      (by rw [hfin]; norm_num [EXACT_THRESHOLD])]
    rw [hfin]
    exact ⟨rfl, rfl, rfl⟩
  · intro p hsome
    have hbounds := calculate_phonetic_score_bounds hit qd p hsome
    constructor
    · intro hle
      have hfin : calculate_final_score
          (some (mainToArg (calculate_main_score max_distance syns hit qd)))
          (calculate_phonetic_score hit qd) =
          { score := 0, type := "partial", method := "text_only" } := by
        rw [hsome, harg, final_score_zero_text]
        rw [if_neg (by dsimp only; exact not_lt_of_le hle)]
      rw [classify_result_no_cap max_distance syns hit qd
        (by rw [hfin]; norm_num [EXACT_THRESHOLD])]
      rw [hfin]
      exact ⟨rfl, rfl⟩
    · intro hpos
      have hfin : calculate_final_score
          (some (mainToArg (calculate_main_score max_distance syns hit qd)))
          (calculate_phonetic_score hit qd) =
          { score := p.score, type := p.match_type, method := "phonetic_fallback" } := by
        rw [hsome, harg, final_score_zero_text]
        rw [if_pos (by dsimp only; exact hpos)]
      rw [classify_result_no_cap max_distance syns hit qd
        (by
          rw [hfin]
          dsimp only
          exact lt_of_le_of_lt hbounds.2 (by norm_num [EXACT_THRESHOLD]))]
      rw [hfin]
      exact ⟨rfl, rfl, rfl⟩

set_option maxRecDepth 40000 in
/-- Counterexample to C6 as stated: an empty `wordsCleaned` with a
non-empty soundex produces a phonetic-fallback hit scored 7.5 with type
`phonetic_strict` — not score 0 with type `partial`. -/
theorem empty_query_counterexample :
    qdEmptyWords.wordsCleaned = [] ∧
    ((process_results 4 [] [("standard", [hitKfe])] qdEmptyWords).hits.map
      (fun s => (s.score, s.match_type, s.match_method))) =
      [(15/2, "phonetic_strict", "phonetic_fallback")] :=
  of_decide_eq_true (by with_unfolding_all rfl)

set_option maxRecDepth 40000 in
/-- Witness for C6 (amended) at the concrete phonetic hit. -/
theorem empty_query_classification_witness :
    qdEmptyWords.wordsCleaned = [] ∧
    calculate_phonetic_score hitKfe qdEmptyWords =
      some ⟨15/2, 1, "phonetic_strict", "kfe1", "kfe1"⟩ ∧
    ((0 : ℚ) < 15/2) ∧
    ((classify_result 4 [] hitKfe qdEmptyWords).score = 15/2 ∧
      (classify_result 4 [] hitKfe qdEmptyWords).match_type = "phonetic_strict" ∧
      (classify_result 4 [] hitKfe qdEmptyWords).match_method = "phonetic_fallback") :=
  ⟨rfl,
   of_decide_eq_true (by with_unfolding_all rfl),
   by norm_num,
   ((empty_query_classification 4 [] hitKfe qdEmptyWords rfl).2
       ⟨15/2, 1, "phonetic_strict", "kfe1", "kfe1"⟩
       (of_decide_eq_true (by with_unfolding_all rfl))).2 (by norm_num)⟩

/-! ## Rounding and score bounds -/

theorem roundHalfEven_nonneg {x : ℚ} (hx : 0 ≤ x) : 0 ≤ roundHalfEven x := by
  unfold roundHalfEven
  dsimp only
  have hf : (0 : ℤ) ≤ ⌊x⌋ := Int.floor_nonneg.mpr hx
  split_ifs <;> omega

theorem roundHalfEven_le (x : ℚ) : (roundHalfEven x : ℚ) ≤ x + 1/2 := by
  unfold roundHalfEven
  dsimp only
  have hf : (⌊x⌋ : ℚ) ≤ x := Int.floor_le x
  split_ifs with h1 h2 h3 <;> push_cast <;> linarith

theorem round2_nonneg {x : ℚ} (hx : 0 ≤ x) : 0 ≤ round2 x := by
  unfold round2
  have h := roundHalfEven_nonneg (show (0 : ℚ) ≤ x * 100 by linarith)
  have : (0 : ℚ) ≤ (roundHalfEven (x * 100) : ℚ) := by exact_mod_cast h
  linarith

theorem round2_le (x : ℚ) : round2 x ≤ x + 1/200 := by
  unfold round2
  have h := roundHalfEven_le (x * 100)
  linarith

theorem clamp_mul_le (X Y : ℚ) :
    (max 0 (min BONUS_MAX X)) * (max 0 (min 1 Y)) ≤ BONUS_MAX := by
  have hb0 : 0 ≤ max 0 (min BONUS_MAX X) := le_max_left _ _
  have hb2 : max 0 (min BONUS_MAX X) ≤ BONUS_MAX :=
    max_le (by norm_num [BONUS_MAX]) (min_le_left _ _)
  have ha1 : max 0 (min 1 Y) ≤ 1 := max_le (by norm_num) (min_le_left _ _)
  calc (max 0 (min BONUS_MAX X)) * (max 0 (min 1 Y))
      ≤ (max 0 (min BONUS_MAX X)) * 1 := mul_le_mul_of_nonneg_left ha1 hb0
    _ ≤ BONUS_MAX := by rw [mul_one]; exact hb2

theorem calculate_name_bonus_nonneg (ev : FieldEval) (qws : List String) :
    0 ≤ calculate_name_bonus ev qws := by
  unfold calculate_name_bonus
  dsimp only
  split_ifs <;>
    first
      | exact le_refl 0
      | exact mul_nonneg (le_max_left 0 _) (le_max_left 0 _)

theorem calculate_name_bonus_le (ev : FieldEval) (qws : List String) :
    calculate_name_bonus ev qws ≤ BONUS_MAX := by
  unfold calculate_name_bonus
  dsimp only
  split_ifs <;>
    first
      | exact clamp_mul_le _ _
      | norm_num [BONUS_MAX]

theorem adjustedScore_nonneg (ev : FieldEval) : 0 ≤ adjustedScore ev := by
  unfold adjustedScore
  split_ifs
  · exact le_refl 0
  · exact le_max_left 0 _

theorem noSpaceAdjusted_nonneg (e : FieldEval) : 0 ≤ noSpaceAdjusted e := by
  unfold noSpaceAdjusted
  split_ifs
  · exact adjustedScore_nonneg e
  · exact le_refl 0
  · exact adjustedScore_nonneg e

theorem winnerSel_score_nonneg (s n : ℚ) (es en : FieldEval)
    (hs : 0 ≤ s) (hn : 0 ≤ n) : 0 ≤ (winnerSel s n es en).2.1 := by
  unfold winnerSel
  split_ifs <;> dsimp only
  · exact hn
  · exact hs
  · exact le_refl 0

theorem calculate_main_score_total_bounds (max_distance : Nat) (syns : SynTable)
    (hit : Hit) (qd : QueryData) :
    0 ≤ (calculate_main_score max_distance syns hit qd).total_score ∧
    (calculate_main_score max_distance syns hit qd).total_score ≤ 12 := by
  unfold calculate_main_score
  by_cases hq : qd.wordsCleaned = []
  · rw [if_pos hq]
    constructor <;> norm_num
  · rw [if_neg hq]
    dsimp only
    constructor
    · exact le_min (by norm_num)
        (add_nonneg
          (winnerSel_score_nonneg _ _ _ _ (adjustedScore_nonneg _) (noSpaceAdjusted_nonneg _))
          (calculate_name_bonus_nonneg _ _))
    · exact min_le_left _ _

theorem calculate_final_score_bounds (m : MainArg) (ts : ℚ) (phon : Option PhonScore)
    (hts : m.total_score = some ts) (h0 : 0 ≤ ts) (h12 : ts ≤ 12)
    (hphon : ∀ p, phon = some p → 0 ≤ p.score ∧ p.score ≤ 15/2) :
    0 ≤ (calculate_final_score (some m) phon).score ∧
    (calculate_final_score (some m) phon).score ≤ 12 := by
  cases phon with
  | none =>
      unfold calculate_final_score
      dsimp only
      rw [hts]
      dsimp only
      split_ifs with h1 h2 h3
      · exact ⟨h0, h12⟩
      · obtain ⟨_, _, habs⟩ := h2
        exact absurd habs (by norm_num)
      · exact ⟨le_refl 0, by norm_num⟩
      · exact ⟨h0, h12⟩
  | some p =>
      have hp := hphon p rfl
      unfold calculate_final_score
      dsimp only
      rw [hts]
      dsimp only
      split_ifs with h1 h2 h3
      · exact ⟨h0, h12⟩
      · obtain ⟨h6, h85, hposv⟩ := h2
        have hw0 : (0 : ℚ) ≤ 7/10 + ts / 40 := by linarith
        have hw1 : 7/10 + ts / 40 ≤ 1 := by linarith
        have hterm1 : 0 ≤ ts * (7/10 + ts / 40) := mul_nonneg h0 hw0
        have hterm2 : 0 ≤ p.score * (1 - (7/10 + ts / 40)) :=
          mul_nonneg hp.1 (by linarith)
        have hhyb : ts * (7/10 + ts / 40) + p.score * (1 - (7/10 + ts / 40)) ≤ 17/2 := by
          have ha : 0 ≤ (17/2 - ts) * (7/10 + ts / 40) := mul_nonneg (by linarith) hw0
          have hb : 0 ≤ (15/2 - p.score) * (1 - (7/10 + ts / 40)) :=
            mul_nonneg (by linarith [hp.2]) (by linarith)
          nlinarith [ha, hb]
        constructor
        · exact round2_nonneg (add_nonneg hterm1 hterm2)
        · have := round2_le (ts * (7/10 + ts / 40) + p.score * (1 - (7/10 + ts / 40)))
          linarith
      · exact ⟨hp.1, le_trans hp.2 (by norm_num)⟩
      · exact ⟨h0, h12⟩

/-- C10: `calculate_final_score` returns the error result
`{score 0, type invalid, method error}` iff its main-score argument is
absent/empty or lacks the `total_score` key; whenever `total_score` is
present (and the phonetic argument, when present, is a genuine phonetic
score, hence nonnegative), the method is one of `text_only`, `weighted`,
`phonetic_fallback` and the returned score is never negative. -/
theorem final_score_error_characterisation :
    (∀ (main : Option MainArg) (phon : Option PhonScore),
      ((calculate_final_score main phon).method = "error" ↔
        (main = none ∨ ∃ m, main = some m ∧ m.total_score = none))) ∧
    (∀ (m : MainArg) (ts : ℚ) (phon : Option PhonScore),
      m.total_score = some ts → (∀ p, phon = some p → 0 ≤ p.score) →
      ((calculate_final_score (some m) phon).method = "text_only" ∨
        (calculate_final_score (some m) phon).method = "weighted" ∨
        (calculate_final_score (some m) phon).method = "phonetic_fallback") ∧
      0 ≤ (calculate_final_score (some m) phon).score) := by
  constructor
  · intro main phon
    cases main with
    | none => simp [calculate_final_score]
    | some m =>
        cases hts : m.total_score with
        | none =>
            unfold calculate_final_score
            dsimp only
            rw [hts]
            exact ⟨fun _ => Or.inr ⟨m, rfl, hts⟩, fun _ => rfl⟩
        | some ts =>
            unfold calculate_final_score
            dsimp only
            rw [hts]
            dsimp only
            constructor
            · intro herr
              exfalso
              revert herr
              split_ifs <;> simp
            · rintro (h | ⟨m2, hm2, hts2⟩)
              · exact Option.noConfusion h
              · injection hm2 with he
                subst he
                rw [hts] at hts2
                exact Option.noConfusion hts2
  · intro m ts phon hts hnn
    cases phon with
    | none =>
        unfold calculate_final_score
        dsimp only
        rw [hts]
        dsimp only
        split_ifs with h1 h2 h3
        · exact ⟨Or.inl rfl, by linarith⟩
        · obtain ⟨_, _, habs⟩ := h2
          exact absurd habs (by norm_num)
        · exact ⟨Or.inr (Or.inr rfl), le_refl 0⟩
        · exact ⟨Or.inl rfl, by linarith⟩
    | some p =>
        have hp := hnn p rfl
        unfold calculate_final_score
        dsimp only
        rw [hts]
        dsimp only
        split_ifs with h1 h2 h3
        · exact ⟨Or.inl rfl, by linarith⟩
        · obtain ⟨h6, h85, hposv⟩ := h2
          refine ⟨Or.inr (Or.inl rfl), ?_⟩
          refine round2_nonneg (add_nonneg (mul_nonneg (by linarith) (by linarith)) ?_)
          exact mul_nonneg hp (by linarith)
        · exact ⟨Or.inr (Or.inr rfl), hp⟩
        · have hge : ¬ ts < p.score := h3
          exact ⟨Or.inl rfl, by linarith⟩

/-- Witness for C10: a main score carrying `total_score = 6.5` blended with
a phonetic score of 7 goes through the `weighted` branch with a
nonnegative result, and the error characterisation holds at these inputs. -/
theorem final_score_error_characterisation_witness :
    (⟨some (13/2), some "fuzzy_full"⟩ : MainArg).total_score = some (13/2) ∧
    (∀ p, (some ⟨7, 1, "phonetic_strict", "ab", "cd"⟩ : Option PhonScore) = some p →
      0 ≤ p.score) ∧
    (((calculate_final_score (some ⟨some (13/2), some "fuzzy_full"⟩)
        (some ⟨7, 1, "phonetic_strict", "ab", "cd"⟩)).method = "text_only" ∨
      (calculate_final_score (some ⟨some (13/2), some "fuzzy_full"⟩)
        (some ⟨7, 1, "phonetic_strict", "ab", "cd"⟩)).method = "weighted" ∨
      (calculate_final_score (some ⟨some (13/2), some "fuzzy_full"⟩)
        (some ⟨7, 1, "phonetic_strict", "ab", "cd"⟩)).method = "phonetic_fallback") ∧
      0 ≤ (calculate_final_score (some ⟨some (13/2), some "fuzzy_full"⟩)
        (some ⟨7, 1, "phonetic_strict", "ab", "cd"⟩)).score) :=
  ⟨rfl,
   fun p hp => by cases hp; norm_num,
   final_score_error_characterisation.2 ⟨some (13/2), some "fuzzy_full"⟩ (13/2)
     (some ⟨7, 1, "phonetic_strict", "ab", "cd"⟩) rfl
     (fun p hp => by cases hp; norm_num)⟩

/-! ## Score range (claim C1) -/

theorem classify_result_bounds (max_distance : Nat) (syns : SynTable) (hit : Hit)
    (qd : QueryData) :
    0 ≤ (classify_result max_distance syns hit qd).score ∧
    (classify_result max_distance syns hit qd).score ≤ 12 ∧
    ((classify_result max_distance syns hit qd).match_type ≠ "exact_full" →
      (classify_result max_distance syns hit qd).score < EXACT_THRESHOLD) ∧
    ((classify_result max_distance syns hit qd).capped = true →
      (classify_result max_distance syns hit qd).score = EXACT_FULL_CAP ∧
      (classify_result max_distance syns hit qd).match_type ≠ "exact_full") := by
  have hmb := calculate_main_score_total_bounds max_distance syns hit qd
  have hfin := calculate_final_score_bounds
    (mainToArg (calculate_main_score max_distance syns hit qd))
    ((calculate_main_score max_distance syns hit qd).total_score)
    (calculate_phonetic_score hit qd) rfl hmb.1 hmb.2
    (fun p hp => calculate_phonetic_score_bounds hit qd p hp)
  unfold classify_result
  dsimp only
  by_cases hcap : (calculate_final_score
      (some (mainToArg (calculate_main_score max_distance syns hit qd)))
      (calculate_phonetic_score hit qd)).type ≠ "exact_full" ∧
      EXACT_THRESHOLD ≤ (calculate_final_score
        (some (mainToArg (calculate_main_score max_distance syns hit qd)))
        (calculate_phonetic_score hit qd)).score
  · rw [if_pos hcap]
    refine ⟨by norm_num [EXACT_FULL_CAP], by norm_num [EXACT_FULL_CAP], ?_, ?_⟩
    · intro _
      norm_num [EXACT_FULL_CAP, EXACT_THRESHOLD]
    · intro _
      exact ⟨rfl, hcap.1⟩
  · rw [if_neg hcap]
    refine ⟨hfin.1, hfin.2, ?_, ?_⟩
    · intro hne
      by_contra hge
      push_neg at hge
      exact hcap ⟨hne, hge⟩
    · intro hc
      exact Bool.noConfusion hc

/-- C1 (amended): every hit returned by `process_results` has
`0 ≤ _score ≤ 12.0` — NOT ≤ 10: an `exact_full` hit may exceed 10.0, up to
`min(12, base 10 + name bonus 2)`. Only `exact_full` may reach
`EXACT_THRESHOLD = 10.0`: every hit of any other match type has
`_score < 10.0`, because a non-`exact_full` score reaching 10.0 is reset to
`EXACT_FULL_CAP = 9.99` with `_capped` set (a capped hit has score exactly
9.99 and is never `exact_full`). -/
theorem process_results_score_range (max_distance : Nat) (syns : SynTable)
    (all_results : List (String × List Hit)) (qd : QueryData) :
    ∀ s ∈ (process_results max_distance syns all_results qd).hits,
      0 ≤ s.score ∧ s.score ≤ 12 ∧
      (s.match_type ≠ "exact_full" → s.score < EXACT_THRESHOLD) ∧
      (s.capped = true → s.score = EXACT_FULL_CAP ∧ s.match_type ≠ "exact_full") := by
  intro s hs
  have hsub : ∀ (L : List Scored) (b : Bool),
      (if b then L.filter (fun s => decide (EXACT_THRESHOLD ≤ s.score)) else L) ⊆ L := by
    intro L b
    cases b
    · exact fun x hx => hx
    · exact fun x hx => List.mem_of_mem_filter hx
  have hs1 : s ∈ sort_results (((deduplicate_results all_results).map
      (fun h => classify_result max_distance syns h qd)).filter
      (fun s => decide (MIN_SCORE ≤ s.score))) := hsub _ _ hs
  have hs2 : s ∈ ((deduplicate_results all_results).map
      (fun h => classify_result max_distance syns h qd)).filter
      (fun s => decide (MIN_SCORE ≤ s.score)) := (sort_results_perm _).mem_iff.mp hs1
  have hs3 : s ∈ (deduplicate_results all_results).map
      (fun h => classify_result max_distance syns h qd) := List.mem_of_mem_filter hs2
  obtain ⟨h, _, rfl⟩ := List.mem_map.mp hs3
  exact classify_result_bounds max_distance syns h qd

set_option maxRecDepth 40000 in
/-- Counterexample to C1 as stated: scenario S1 (query "petit resto",
candidate named "Petit Resto") yields base score 10 plus a full name bonus
of 2, so the returned hit has `_score = 12.0 > 10.0` with
`_match_type = exact_full` — the claimed upper bound 10.0 fails. -/
theorem score_above_ten_counterexample :
    ((process_results 4 [] [("name_search", [hitS1])] qdS1).hits.map
      (fun s => (s.score, s.match_type))) = [(12, "exact_full")] ∧
    ¬ ((12 : ℚ) ≤ 10) :=
  of_decide_eq_true (by with_unfolding_all rfl)

set_option maxRecDepth 40000 in
/-- Witness for C1 (amended) at scenario S1. -/
theorem process_results_score_range_witness :
    (classify_result 4 [] hitS1d qdS1) ∈
      (process_results 4 [] [("name_search", [hitS1])] qdS1).hits ∧
    (0 ≤ (classify_result 4 [] hitS1d qdS1).score ∧
      (classify_result 4 [] hitS1d qdS1).score ≤ 12 ∧
      ((classify_result 4 [] hitS1d qdS1).match_type ≠ "exact_full" →
        (classify_result 4 [] hitS1d qdS1).score < EXACT_THRESHOLD) ∧
      ((classify_result 4 [] hitS1d qdS1).capped = true →
        (classify_result 4 [] hitS1d qdS1).score = EXACT_FULL_CAP ∧
        (classify_result 4 [] hitS1d qdS1).match_type ≠ "exact_full")) :=
  have hlist : (process_results 4 [] [("name_search", [hitS1])] qdS1).hits =
      [classify_result 4 [] hitS1d qdS1] := by with_unfolding_all rfl
  have hmem : (classify_result 4 [] hitS1d qdS1) ∈
      (process_results 4 [] [("name_search", [hitS1])] qdS1).hits := by
    rw [hlist]; exact List.mem_singleton.mpr rfl
  ⟨hmem, process_results_score_range 4 [] [("name_search", [hitS1])] qdS1
     (classify_result 4 [] hitS1d qdS1) hmem⟩

end SearchPy
